import Mathlib

/-!
Verification of `golden-marshmallows` (src/golden_marshmallows/schema.py).

Strings are modelled as `List Char`.  The Python functions under test only
distinguish ASCII letters (`[A-Z]` in the regex, `str.capitalize`/`str.lower`
on identifier-like input), so the character-level primitives below implement
the ASCII case maps; this matches Python exactly on ASCII data, which is the
domain of every claim and every concrete input used here.
-/

namespace GoldenMarshmallows

/-! ## Definitions: the program embedded

The case converters `camelcase` and `snakecase` (schema.py lines
11-25), working on `List Char`.  ASCII case mapping is explicit
arithmetic on code points, as in CPython for ASCII input. -/

/-- `[A-Z]` of the regex in `snakecase` (schema.py line 24): an ASCII
uppercase letter. -/
def isUp (c : Char) : Bool := 65 ≤ c.toNat && c.toNat ≤ 90

/-- An ASCII lowercase letter `a`-`z`. -/
def isLowAZ (c : Char) : Bool := 97 ≤ c.toNat && c.toNat ≤ 122

/-- Python `str.lower` on one character (ASCII range). -/
def pyToLower (c : Char) : Char :=
  if 65 ≤ c.toNat && c.toNat ≤ 90 then Char.ofNat (c.toNat + 32) else c

/-- Python `str.upper` on one character (ASCII range). -/
def pyToUpper (c : Char) : Char :=
  if 97 ≤ c.toNat && c.toNat ≤ 122 then Char.ofNat (c.toNat - 32) else c

/-- Python `str.capitalize`: first character uppercased, every remaining
character lowercased.  (`"".capitalize() == ""`.) -/
def pyCapitalize (s : List Char) : List Char :=
  match s with
  | [] => []
  | c :: cs => pyToUpper c :: cs.map pyToLower

/-- Python `str.split("_")`: split on every underscore, keeping empty
segments; `"".split("_") == [""]`. -/
def splitU : List Char → List (List Char)
  | [] => [[]]
  | c :: cs =>
    if c = '_' then [] :: splitU cs
    else
      match splitU cs with
      | [] => [[c]]
      | g :: gs => (c :: g) :: gs

/-- `camelcase` (schema.py lines 11-19):
`if "_" not in string: return string`, else join the `"_"`-split segments,
`x.capitalize() if i > 0 else x`. -/
def camelcase (s : List Char) : List Char :=
  if '_' ∈ s then
    match splitU s with
    | [] => []
    | x :: xs => x ++ (xs.map pyCapitalize).flatten
  else s

/-- Whether the regex `([^A-Z]+?)([A-Z])(.)` of `snakecase`
(schema.py line 24) has a match whose `[A-Z]` group sits at index `i` of
`s`: the lazy nonempty group `[^A-Z]+?` needs a non-uppercase character
ending just before `i` (so `1 ≤ i` and `s[i-1] ∉ [A-Z]`; `[^A-Z]` matches
a newline), the second group needs `s[i] ∈ [A-Z]`, and the `.` group needs
one more character after `i` that is not a newline (Python `.` without
`re.DOTALL` does not match `'\n'`). -/
def matchAt (s : List Char) (i : Nat) : Bool :=
  decide (1 ≤ i) && decide (i + 1 < s.length) &&
    isUp (s.getD i ' ') && !(isUp (s.getD (i - 1) ' ')) &&
    decide (s.getD (i + 1) ' ' ≠ '\n')

/-- The index of the `[A-Z]` group of the leftmost match of
`([^A-Z]+?)([A-Z])(.)` in `s`, if any.  (The leftmost match of that pattern
is determined by the first index satisfying `matchAt`.) -/
def findCap (s : List Char) : Option Nat :=
  (List.range s.length).find? (matchAt s)

/-- One pass of `re.sub(r'([^A-Z]+?)([A-Z])(.)', r'\1_\2\3', s)`
(schema.py line 24), driven by fuel: repeatedly find the leftmost match,
emit everything up to the `[A-Z]` group unchanged (the prefix before the
match plus the `\1` group), insert `_`, emit the `\2` and `\3` groups, and
continue scanning after the match (after index `i+1`).  Every match
consumes at least three characters, so `s.length` is always sufficient
fuel. -/
def snakeSubAux : Nat → List Char → List Char
  | 0, s => s
  | fuel + 1, s =>
    match findCap s with
    | none => s
    | some i =>
      s.take i ++ '_' :: s.getD i ' ' :: s.getD (i + 1) ' ' ::
        snakeSubAux fuel (s.drop (i + 2))

/-- `re.sub(r'([^A-Z]+?)([A-Z])(.)', r'\1_\2\3', s)`. -/
def snakeSub (s : List Char) : List Char := snakeSubAux s.length s

/-- `snakecase` (schema.py lines 22-25): the substitution, then `.lower()`. -/
def snakecase (s : List Char) : List Char := (snakeSub s).map pyToLower

/-- A one-pass scanner equivalent to the substitution of `snakecase`
(`snakeSub_eq_scan` below): walk left to right carrying whether the
previous character of the current scanning region exists and is
non-uppercase; such a character followed by an uppercase letter that is
neither the last character nor followed by a newline (the `.` group)
triggers an insertion of `_`, which consumes the uppercase letter and the
character after it (the consumed character cannot serve as the preceding
context of a later insertion). -/
def reSubScan : Bool → List Char → List Char
  | _, [] => []
  | _, [c] => [c]
  | prevLow, c :: d :: rest =>
    if prevLow && isUp c && decide (d ≠ '\n') then '_' :: c :: d :: reSubScan false rest
    else c :: reSubScan (!(isUp c)) (d :: rest)

/-- `matchAt` generalized to a scanning region that starts mid-string:
at index `0` the flag `b` tells whether a preceding non-uppercase
character is available. -/
def matchAtB (b : Bool) (s : List Char) (i : Nat) : Bool :=
  (if i = 0 then b else !(isUp (s.getD (i - 1) ' '))) &&
    isUp (s.getD i ' ') && decide (i + 1 < s.length) &&
    decide (s.getD (i + 1) ' ' ≠ '\n')

/-- The identifier obtained by joining `words` with single underscores. -/
def joinUnderscore : List (List Char) → List Char
  | [] => []
  | [w] => w
  | w :: ws => w ++ '_' :: joinUnderscore ws

/-- A nonempty word of ASCII lowercase letters. -/
def LowerWord (w : List Char) : Prop := w ≠ [] ∧ ∀ c ∈ w, isLowAZ c = true

/-- The condition on the words after the first under which the round-trip
of claim C1 goes through: every such word has at least two letters, and
every such word other than the last has at least three. -/
def WordsOk : List (List Char) → Prop
  | [] => True
  | [w] => LowerWord w ∧ 2 ≤ w.length
  | w :: ws => LowerWord w ∧ 3 ≤ w.length ∧ WordsOk ws

/-- The per-segment transform exactly as claim C2 words it: uppercase the
first character, leave the remaining characters of the segment
unchanged. -/
def upFirst : List Char → List Char
  | [] => []
  | c :: cs => pyToUpper c :: cs

/-- `camelcase` as claim C2 describes it: split on `_`; if there is no
underscore return the input unchanged; otherwise keep the first segment
as-is, uppercase the first character of every subsequent segment leaving
its remaining characters unchanged, concatenate with no separator, with an
empty segment contributing nothing. -/
def camelcaseClaimC2 (s : List Char) : List Char :=
  if '_' ∈ s then
    match s.splitOn '_' with
    | [] => []
    | x :: xs => x ++ (xs.map upFirst).flatten
  else s

/-- `camelcase` as the amended claim C2 describes it: identical to
`camelcaseClaimC2` except that every subsequent segment goes through
Python `str.capitalize`, which uppercases the first character AND
lowercases the remaining characters of the segment. -/
def camelcaseAmendedC2 (s : List Char) : List Char :=
  if '_' ∈ s then
    match s.splitOn '_' with
    | [] => []
    | x :: xs => x ++ (xs.map pyCapitalize).flatten
  else s

/-- The match condition exactly as claim C3 words it: an uppercase letter
preceded by a non-uppercase character and followed by at least one more
character.  (The claim's words carry no newline condition; the real `.`
group additionally excludes a newline, see `matchAt`.  The divergence
`C3_counterexample` exhibits involves no newline.) -/
def matchAtClaim (s : List Char) (i : Nat) : Bool :=
  decide (1 ≤ i) && decide (i + 1 < s.length) &&
    isUp (s.getD i ' ') && !(isUp (s.getD (i - 1) ' '))

/-- `snakecase` as claim C3 describes it: insert `_` before every
uppercase letter of `s` that is both preceded by a run of non-uppercase
characters and followed by at least one more character (exactly the
indices satisfying `matchAtClaim`), then lowercase the whole string. -/
def snakecaseClaimC3 (s : List Char) : List Char :=
  (((List.range s.length).map (fun i =>
    if matchAtClaim s i then ['_', s.getD i ' '] else [s.getD i ' '])).flatten).map pyToLower

/-! ## The schema machinery (schema.py lines 28-254)

Field names are Python `str`; the conversions are the `List Char`
functions above lifted to `String`. -/

/-- `camelcase` on a Python `str`. -/
def camelcaseS (s : String) : String := ⟨camelcase s.data⟩

/-- `snakecase` on a Python `str`. -/
def snakecaseS (s : String) : String := ⟨snakecase s.data⟩

/-- SQLAlchemy column type classes, as compared by `type(val.type)`
against the keys of `FIELD_TYPE_MAP` (schema.py lines 119-134).
`ARRAY`/`pgARRAY` carry their instance's `item_type`; `other` stands for
any type class that is not a key of the table. -/
inductive ColType where
  | TEXT
  | String
  | JSON
  | ENUM
  | INTEGER
  | Integer
  | BIGINT
  | TIMESTAMP
  | DATE
  | ARRAY (item : ColType)
  | pgARRAY (item : ColType)
  | BOOLEAN
  | Boolean
  | UUID
  | other (name : Nat)
  deriving DecidableEq

/-- Marshmallow field classes: the values of `FIELD_TYPE_MAP` plus
`fields.Function`, which the test-suite subclasses use for manually
declared fields. -/
inductive FieldCls where
  | String
  | Raw
  | EnumField
  | Integer
  | DateTime
  | Date
  | List
  | Boolean
  | UUID
  | Function
  deriving DecidableEq

/-- `FIELD_TYPE_MAP` (schema.py lines 119-134) as a lookup from the
column's type class; `none` is the `KeyError` of a missing dict key. -/
def FIELD_TYPE_MAP : ColType → Option FieldCls
  | .TEXT => some .String
  | .String => some .String
  | .JSON => some .Raw
  | .ENUM => some .EnumField
  | .INTEGER => some .Integer
  | .Integer => some .Integer
  | .BIGINT => some .Integer
  | .TIMESTAMP => some .DateTime
  | .DATE => some .Date
  | .ARRAY _ => some .List
  | .pgARRAY _ => some .List
  | .BOOLEAN => some .Boolean
  | .Boolean => some .Boolean
  | .UUID => some .UUID
  | .other _ => none

/-- One `sqlalchemy.Column` as `generate_fields` reads it: its type
instance and its `nullable` flag. -/
structure Column where
  type : ColType
  nullable : Bool
  deriving DecidableEq

/-- A SQLAlchemy class description:
`sqlalchemy_cls.__mapper__.columns._data`, an insertion-ordered dict of
column names to columns (keys are unique). -/
structure SqlaCls where
  columns : List (String × Column)
  deriving DecidableEq

/-- A marshmallow field instance as schema.py manipulates it.
`basic` covers every field created as `fieldtype(...)` in
`generate_fields` and manually declared fields; `nested` is a
`fields.Nested` wrapping a recursively constructed `GoldenSchema`
(recorded as the sub-schema's casing flags, `new_obj` flag and field
dict) together with its `many`.  The `attribute`, `load_from` and
`dump_to` slots are `none` until assigned, as in marshmallow 2. -/
inductive Field where
  | basic (cls : FieldCls) (item : Option FieldCls) (allow_none : Bool)
      (snake_to_camel camel_to_snake : Bool)
      (attr load_from dump_to : Option String)
  | nested (sub_snake_to_camel sub_camel_to_snake sub_new_obj : Bool)
      (subfields : List (String × Field)) (many : Bool)
      (attr load_from dump_to : Option String)

/-- The field's `attribute` slot (named `attr` here because `attribute`
is a Lean keyword). -/
def Field.attr : Field → Option String
  | .basic _ _ _ _ _ a _ _ => a
  | .nested _ _ _ _ _ a _ _ => a

def Field.load_from : Field → Option String
  | .basic _ _ _ _ _ _ lf _ => lf
  | .nested _ _ _ _ _ _ lf _ => lf

def Field.dump_to : Field → Option String
  | .basic _ _ _ _ _ _ _ dt => dt
  | .nested _ _ _ _ _ _ _ dt => dt

/-- `allow_none`: for `basic` fields the value passed at construction;
`fields.Nested` is created without `allow_none`, so the marshmallow
default `False`. -/
def Field.allow_none : Field → Bool
  | .basic _ _ an _ _ _ _ _ => an
  | .nested _ _ _ _ _ _ _ _ => false

def Field.set_attr : Field → Option String → Field
  | .basic cls item an stc cts _ lf dt, a => .basic cls item an stc cts a lf dt
  | .nested s1 s2 s3 sf m _ lf dt, a => .nested s1 s2 s3 sf m a lf dt

def Field.set_load_from : Field → Option String → Field
  | .basic cls item an stc cts a _ dt, lf => .basic cls item an stc cts a lf dt
  | .nested s1 s2 s3 sf m a _ dt, lf => .nested s1 s2 s3 sf m a lf dt

def Field.set_dump_to : Field → Option String → Field
  | .basic cls item an stc cts a lf _, dt => .basic cls item an stc cts a lf dt
  | .nested s1 s2 s3 sf m a lf _, dt => .nested s1 s2 s3 sf m a lf dt

/-- The subfield dict of a `nested` field, `[]` for basic fields. -/
def Field.subfieldsD : Field → List (String × Field)
  | .basic _ _ _ _ _ _ _ _ => []
  | .nested _ _ _ sf _ _ _ _ => sf

/-- The state of a `CaseChangingSchema`/`GoldenSchema` instance: the
casing flags, the `new_obj` flag, and the field dict.  In marshmallow 2
the instance's `fields` and `declared_fields` dicts hold the same field
objects and schema.py writes both in lockstep (lines 247-248), so the
embedding keeps one insertion-ordered association list for both. -/
structure SchemaState where
  snake_to_camel : Bool
  camel_to_snake : Bool
  new_obj : Bool
  fields : List (String × Field)

/-- Python exceptions raised by schema.py during construction. -/
inductive PyErr where
  | valueError (msg : String)
  | keyError (key : ColType)
  | enumBothCasing
  deriving DecidableEq

/-- Python dict assignment `d[k] = v` on an insertion-ordered dict:
overwrite in place if the key is present, else append. -/
def dictSet : List (String × Field) → String → Field → List (String × Field)
  | [], k, v => [(k, v)]
  | (k', v') :: rest, k, v =>
    if k' = k then (k, v) :: rest else (k', v') :: dictSet rest k v

/-- The `nested_map` argument of `GoldenSchema`: an insertion-ordered
dict from attribute names to `{'class', 'many', 'nested_map'}`
descriptors.  `generate_nested_fields` reads the sub-map as
`val.get('nested_map') or {}`, which makes an absent, `None` or empty
sub-map all equivalent to `{}`, so the embedding stores the sub-map
directly, with `nil` for all three. -/
inductive NestedMap where
  | nil : NestedMap
  | cons (key : String) (cls : SqlaCls) (many : Bool) (sub : NestedMap)
      (rest : NestedMap) : NestedMap

/-- `EnumField.__init__` (schema.py lines 30-37). -/
def EnumField.init (snake_to_camel camel_to_snake allow_none : Bool) :
    Except PyErr Field :=
  if snake_to_camel && camel_to_snake then .error .enumBothCasing
  else .ok (.basic .EnumField none allow_none snake_to_camel camel_to_snake
    none none none)

/-- The per-field body of `CaseChangingSchema.alter_case` (lines
100-107): set `load_from` and `dump_to` to the converted field name under
the active policy, or leave the field alone when no policy is set. -/
def alterField (snake_to_camel camel_to_snake : Bool) (name : String) (f : Field) :
    Field :=
  if snake_to_camel then
    (f.set_load_from (some (camelcaseS name))).set_dump_to (some (camelcaseS name))
  else if camel_to_snake then
    (f.set_load_from (some (snakecaseS name))).set_dump_to (some (snakecaseS name))
  else f

/-- `CaseChangingSchema.alter_case` (lines 96-107): make every declared
field `load_from` and `dump_to` the converted version of its name. -/
def alter_case (st : SchemaState) : SchemaState :=
  { st with fields := st.fields.map (fun p =>
      (p.1, alterField st.snake_to_camel st.camel_to_snake p.1 p.2)) }

/-- `CaseChangingSchema.__init__` (lines 68-94): raise `ValueError` when
both casing flags are set; store the flags; initialize marshmallow with
`strict=True` (reflected in the modelled `load` below, which aggregates
and raises all errors); then `alter_case`.  `declared` is the field dict
the marshmallow metaclass collected from manual class-level
declarations. -/
def CaseChangingSchema.init (snake_to_camel camel_to_snake : Bool)
    (declared : List (String × Field)) : Except PyErr SchemaState :=
  if snake_to_camel && camel_to_snake then
    .error (.valueError "Only one of snake_to_camel or camel_to_snake can be True")
  else
    .ok (alter_case
      { snake_to_camel := snake_to_camel, camel_to_snake := camel_to_snake,
        new_obj := false, fields := declared })

/-- The body of one iteration of the column loop of
`GoldenSchema.generate_fields` (lines 205-221):
`fieldtype = FIELD_TYPE_MAP[type(val.type)]` (`KeyError` on a miss);
`ARRAY`/`pgARRAY` get `fieldtype(FIELD_TYPE_MAP[type(val.type.item_type)],
allow_none=val.nullable)` (`KeyError` on a miss); `ENUM` gets an
`EnumField` carrying the schema's casing flags; everything else gets
`fieldtype(allow_none=val.nullable)`. -/
def columnField (snake_to_camel camel_to_snake : Bool) (val : Column) :
    Except PyErr Field := do
  let fieldtype ← match FIELD_TYPE_MAP val.type with
    | some ft => Except.ok ft
    | none => Except.error (.keyError val.type)
  match val.type with
  | .ARRAY item =>
    (match FIELD_TYPE_MAP item with
      | some itemCls => Except.ok (Field.basic fieldtype (some itemCls)
          val.nullable false false none none none)
      | none => Except.error (.keyError item))
  | .pgARRAY item =>
    (match FIELD_TYPE_MAP item with
      | some itemCls => Except.ok (Field.basic fieldtype (some itemCls)
          val.nullable false false none none none)
      | none => Except.error (.keyError item))
  | .ENUM => EnumField.init snake_to_camel camel_to_snake val.nullable
  | _ => Except.ok (Field.basic fieldtype none val.nullable false false
      none none none)

/-- The column loop of `GoldenSchema.generate_fields` (lines 204-221),
building the `new_fields` dict in column order (`columns` is a Python
dict, so its keys are unique). -/
def generate_column_fields (snake_to_camel camel_to_snake : Bool) :
    List (String × Column) → Except PyErr (List (String × Field))
  | [] => .ok []
  | (key, val) :: rest => do
    let fld ← columnField snake_to_camel camel_to_snake val
    let tail ← generate_column_fields snake_to_camel camel_to_snake rest
    .ok ((key, fld) :: tail)

/-- One iteration of the `add_fields` loop (lines 233-248): skip the
field if its name is already declared; skip it if `new_obj` and the name
is `'id'`; otherwise set `field.attribute` to the original name, convert
the exposed name under the casing policy, and assign into the field
dict. -/
def addOneField (st : SchemaState) (p : String × Field) : SchemaState :=
  if (st.fields.lookup p.1).isSome then st
  else if st.new_obj ∧ p.1 = "id" then st
  else
    let field := p.2.set_attr (some p.1)
    let name := if st.snake_to_camel then camelcaseS p.1
      else if st.camel_to_snake then snakecaseS p.1
      else p.1
    { st with fields := dictSet st.fields name field }

/-- `GoldenSchema.add_fields` (lines 226-248): the loop over the
generated fields. -/
def add_fields (st : SchemaState) (new_fields : List (String × Field)) : SchemaState :=
  new_fields.foldl addOneField st

/-- The recursive core of `GoldenSchema` construction.  In the source the
recursion cycles through `__init__` (lines 136-165) → `generate_fields`
(lines 189-224) → `generate_nested_fields` (lines 167-187) → nested
`__init__`, descending exactly on the nested map; it is compiled here as
one structurally recursive function, with the cons case inlining the
nested `GoldenSchema(val['class'], nested_map=val.get('nested_map') or {},
snake_to_camel=..., camel_to_snake=..., many=val['many'],
new_obj=self.new_obj)` call (a nested schema starts from the empty
declared-field dict).  `GoldenSchema.init`, `generate_fields` and
`generate_nested_fields` below are the source's three callables as
definitional layers over this core; `generate_nested_fields_cons`
restates the cons case in the source's shape. -/
def nestedFieldsGo (snake_to_camel camel_to_snake new_obj : Bool) :
    NestedMap → List (String × Field) → Except PyErr (List (String × Field))
  | .nil, new_fields => .ok new_fields
  | .cons key cls many sub rest, new_fields => do
    let st ← CaseChangingSchema.init snake_to_camel camel_to_snake []
    let st := { st with new_obj := new_obj }
    let colFields ← generate_column_fields snake_to_camel camel_to_snake cls.columns
    let subFields ← nestedFieldsGo snake_to_camel camel_to_snake new_obj sub colFields
    let subSchema := add_fields st subFields
    let fieldtype := Field.nested subSchema.snake_to_camel subSchema.camel_to_snake
      subSchema.new_obj subSchema.fields many none none none
    nestedFieldsGo snake_to_camel camel_to_snake new_obj rest
      (dictSet new_fields key fieldtype)

/-- `GoldenSchema.generate_nested_fields` (lines 167-187): for each
`nested_map` entry, recursively construct a `GoldenSchema` for the
entry's class and sub-map, propagating the parent's casing flags and
`new_obj`, wrap it in `fields.Nested(..., many=val['many'])`, and assign
it into `new_fields`. -/
def generate_nested_fields (snake_to_camel camel_to_snake new_obj : Bool)
    (nested_map : NestedMap) (new_fields : List (String × Field)) :
    Except PyErr (List (String × Field)) :=
  nestedFieldsGo snake_to_camel camel_to_snake new_obj nested_map new_fields

/-- `GoldenSchema.generate_fields` (lines 189-224): the column loop, then
`generate_nested_fields` on the result. -/
def generate_fields (snake_to_camel camel_to_snake new_obj : Bool)
    (columns : List (String × Column)) (nested_map : NestedMap) :
    Except PyErr (List (String × Field)) := do
  let new_fields ← generate_column_fields snake_to_camel camel_to_snake columns
  generate_nested_fields snake_to_camel camel_to_snake new_obj nested_map new_fields

/-- `GoldenSchema.__init__` (lines 136-165): run
`CaseChangingSchema.__init__` with the casing flags, store `new_obj`,
introspect `sqlalchemy_cls.__mapper__.columns._data`, `generate_fields`,
and `add_fields`. -/
def GoldenSchema.init (sqlalchemy_cls : SqlaCls) (nested_map : NestedMap)
    (new_obj snake_to_camel camel_to_snake : Bool)
    (declared : List (String × Field)) : Except PyErr SchemaState := do
  let st ← CaseChangingSchema.init snake_to_camel camel_to_snake declared
  let st := { st with new_obj := new_obj }
  let new_fields ← generate_fields snake_to_camel camel_to_snake new_obj
    sqlalchemy_cls.columns nested_map
  .ok (add_fields st new_fields)

/-- The wire name a field is emitted under on dump: `dump_to` when set,
else the field's key in the field dict (marshmallow 2). -/
def dumpName (key : String) (f : Field) : String := (f.dump_to).getD key

/-- The wire name a field is read from on load: `load_from` when set,
else the field's key. -/
def loadName (key : String) (f : Field) : String := (f.load_from).getD key

/-- The attribute of the underlying object a field reads/writes:
`attribute` when set, else the field's key. -/
def attrName (key : String) (f : Field) : String := (f.attr).getD key

/-- The name conversion `alter_case` and `add_fields` apply under the
casing policy: `camelcase` under snake-to-camel, `snakecase` under
camel-to-snake, the name unchanged when no policy is set. -/
def convertPolicy (snake_to_camel camel_to_snake : Bool) (name : String) : String :=
  if snake_to_camel then camelcaseS name
  else if camel_to_snake then snakecaseS name
  else name

/-- The keys of a nested map. -/
def nestedKeys : NestedMap → List String
  | .nil => []
  | .cons k _ _ _ rest => k :: nestedKeys rest

/-- The class description with the column conventionally named `id`
removed. -/
def SqlaCls.dropId (cls : SqlaCls) : SqlaCls :=
  ⟨cls.columns.filter (fun p => p.1 ≠ "id")⟩

/-- The nested map with every entry named `id` removed and `dropId`
applied recursively to every class description and sub-map. -/
def NestedMap.dropId : NestedMap → NestedMap
  | .nil => .nil
  | .cons k c m sub rest =>
    if k = "id" then NestedMap.dropId rest
    else .cons k c.dropId m sub.dropId rest.dropId

/-- Modelled from the spec: marshmallow 2's `Schema.load` in the
`strict=True` mode that `CaseChangingSchema.__init__` forces at line 91
(marshmallow itself is an external dependency, not part of this
repository's src).  Per the spec (sections 4.2 and 7): consume a mapping
keyed by external names and produce a mapping keyed by internal names;
input keys that are no field's external name are ignored; a missing key
for a non-nullable field is a field-level error naming that field; all
field-level failures of the one pass are aggregated into a single
`ValidationError` (the error list) instead of stopping at the first.
Values are opaque. -/
def loadData {V : Type} (sch : SchemaState) (input : List (String × V)) :
    Except (List String) (List (String × V)) :=
  let errors := sch.fields.filterMap (fun p =>
    if (input.lookup (loadName p.1 p.2)).isNone ∧ p.2.allow_none = false then
      some p.1
    else none)
  if errors = [] then
    .ok (sch.fields.filterMap (fun p =>
      (input.lookup (loadName p.1 p.2)).map (fun v => (attrName p.1 p.2, v))))
  else .error errors

/-- `GoldenSchema.make_sqlalchemy_object` (lines 250-253), with the
SQLAlchemy constructor modelled from the spec: `sqlalchemy_cls(**data)`
builds an instance whose attribute `a` holds `data[a]` when that keyword
was passed and the column default — `None`, modelled as `none` —
otherwise.  The instance is modelled by its attribute lookup. -/
def make_sqlalchemy_object {V : Type} (data : List (String × V)) (a : String) :
    Option V :=
  data.lookup a

/-! ### Concrete schema instances used by the claim witnesses -/

/-- Concrete instance of claim C4: a serializer over a single
non-nullable `name` column ignores an unknown input key, and an input
missing `name` yields an aggregated error naming it. -/
def C4schema : SchemaState :=
  match GoldenSchema.init ⟨[("name", ⟨.String, false⟩)]⟩ .nil false false false [] with
  | .ok st => st
  | .error _ => ⟨false, false, false, []⟩

/-- Concrete instance of the amended claim C5: with `snake_to_camel`, a
manually declared `extra_field` (no column or nested entry converts onto
that name) survives construction over the `Alchemist`-like class. -/
def alchemistExtraSchema : SchemaState :=
  match GoldenSchema.init
      ⟨[("id", ⟨.Integer, true⟩), ("name", ⟨.String, true⟩),
        ("school_id", ⟨.Integer, true⟩)]⟩ .nil false true false
      [("extra_field", Field.basic .Function none false false false none none none)] with
  | .ok st => st
  | .error _ => ⟨false, false, false, []⟩

/-- The schema of the claim C7 witness: the `Alchemist`-like class with a
`formulae` nested map, `new_obj` set, no casing policy, no manual
declarations. -/
def alchemistNewObjSchema : SchemaState :=
  match GoldenSchema.init
      ⟨[("id", ⟨.Integer, true⟩), ("name", ⟨.String, true⟩),
        ("school_id", ⟨.Integer, true⟩)]⟩
      (.cons "formulae"
        ⟨[("id", ⟨.Integer, true⟩), ("title", ⟨.String, true⟩),
          ("author_id", ⟨.Integer, true⟩)]⟩ true .nil .nil)
      true false false [] with
  | .ok st => st
  | .error _ => ⟨false, false, false, []⟩

/-- The data decoded in the claim C7 witness. -/
def alchemistNewObjData : List (String × Nat) :=
  match loadData alchemistNewObjSchema
      [("name", 0), ("school_id", 1), ("formulae", 2)] with
  | .ok d => d
  | .error _ => []

/-! ### Claim C10: a store model of the nested-map dicts -/

/-- A nested-map entry value as it sits on the Python heap: the entry's
`'class'`, its `'many'` flag, and the optional `'nested_map'` key holding
a REFERENCE — a heap address — to another nested-map dict. -/
structure NVal where
  cls : SqlaCls
  many : Bool
  nested_map : Option Nat

/-- The contents of one nested-map dict on the heap. -/
abbrev HMap := List (String × NVal)

/-- Reading the dict at heap address `a` (addresses are indices into the
list of allocated dicts). -/
def storeGet (store : List HMap) (a : Nat) : HMap := store.getD a []

/-- `val.get('nested_map') or {}` (schema.py line 178): the existing
sub-map when the `'nested_map'` key is present and its dict is truthy
(non-empty); otherwise a FRESH empty dict, allocated at the end of the
heap.  This is the only allocation construction performs; nothing is
ever written to an existing cell. -/
def nmAlloc (store : List HMap) (o : Option Nat) : Nat × List HMap :=
  match o with
  | some a =>
    if (storeGet store a).isEmpty then (store.length, store ++ [[]]) else (a, store)
  | none => (store.length, store ++ [[]])

/-- The loop of `generate_nested_fields` (lines 174-185) in the store
model: for each entry of the nested-map dict, resolve
`val.get('nested_map') or {}` through `nmAlloc`, construct the nested
`GoldenSchema` through `recInit` (the constructor at one less fuel),
wrap the result in a `Nested` field and assign it into `new_fields`,
threading the heap through. -/
def nestedFieldsSGo
    (recInit : SqlaCls → Nat → List HMap →
      Option (Except PyErr SchemaState) × List HMap) :
    HMap → List (String × Field) → List HMap →
    Option (Except PyErr (List (String × Field))) × List HMap
  | [], new_fields, store => (some (.ok new_fields), store)
  | (key, val) :: rest, new_fields, store =>
    let al := nmAlloc store val.nested_map
    match recInit val.cls al.1 al.2 with
    | (some (.ok subSchema), store2) =>
      nestedFieldsSGo recInit rest
        (dictSet new_fields key
          (Field.nested subSchema.snake_to_camel subSchema.camel_to_snake
            subSchema.new_obj subSchema.fields val.many none none none)) store2
    | (some (.error e), store2) => (some (.error e), store2)
    | (none, store2) => (none, store2)

/-- `GoldenSchema.__init__` (lines 136-165) in the store model, which
makes the heap of nested-map dicts explicit in order to state claim
C10's frame property: the constructor receives the ADDRESS of its
`nested_map` dict argument and threads the heap through
`generate_fields`/`generate_nested_fields`.  Python dict reads are
`storeGet`; the recursion of `generate_nested_fields` runs the
constructor at one less fuel, `none` playing CPython's `RecursionError`
cut-off (unreachable for any finite nesting with enough fuel).  The
schema computed agrees with `GoldenSchema.init`; only the heap threading
is new. -/
def goldenInitS : Nat → SqlaCls → Nat → Bool → Bool → Bool →
    List (String × Field) → List HMap →
    Option (Except PyErr SchemaState) × List HMap
  | 0, _, _, _, _, _, _, store => (none, store)
  | fuel + 1, sqlalchemy_cls, nested_map, new_obj, snake_to_camel, camel_to_snake,
      declared, store =>
    match CaseChangingSchema.init snake_to_camel camel_to_snake declared with
    | .error e => (some (.error e), store)
    | .ok st =>
      match generate_column_fields snake_to_camel camel_to_snake
          sqlalchemy_cls.columns with
      | .error e => (some (.error e), store)
      | .ok colFields =>
        let r := nestedFieldsSGo
          (fun c a s =>
            goldenInitS fuel c a new_obj snake_to_camel camel_to_snake [] s)
          (storeGet store nested_map) colFields store
        (r.1.map (Except.map (add_fields { st with new_obj := new_obj })), r.2)

/-- The heap of the claim C10 witness: address 0 holds a nested map with
one entry (class with an `id` column, `many`, no sub-map); address 1
holds the module-level default `{}` dict of `__init__`'s
`nested_map={}` parameter. -/
def c10Store : List HMap :=
  [[("alchemists", ⟨⟨[("id", ⟨.Integer, true⟩)]⟩, true, none⟩)], []]

/-! ## Theorems -/

/-! ### Character-level lemmas are stated first, then the claims in
the order C1, C2, C3, then the schema claims. -/

/-! ### Character-level lemmas -/

theorem toNat_ofNat_valid {n : Nat} (h : n < 55296) : (Char.ofNat n).toNat = n := by
  rw [Char.ofNat, dif_pos (Or.inl h)]
  rfl

theorem isLowAZ_iff {c : Char} : isLowAZ c = true ↔ 97 ≤ c.toNat ∧ c.toNat ≤ 122 := by
  simp [isLowAZ]

theorem isUp_iff {c : Char} : isUp c = true ↔ 65 ≤ c.toNat ∧ c.toNat ≤ 90 := by
  simp [isUp]

theorem isUp_of_low {c : Char} (h : isLowAZ c = true) : isUp c = false := by
  rw [isLowAZ_iff] at h
  simp only [isUp, Bool.and_eq_false_iff, decide_eq_false_iff_not]
  omega

theorem pyToLower_low {c : Char} (h : isLowAZ c = true) : pyToLower c = c := by
  rw [isLowAZ_iff] at h
  rw [pyToLower, if_neg]
  simp only [Bool.and_eq_true, decide_eq_true_eq, not_and]
  omega

theorem toNat_pyToUpper_low {c : Char} (h : isLowAZ c = true) :
    (pyToUpper c).toNat = c.toNat - 32 := by
  rw [isLowAZ_iff] at h
  rw [pyToUpper, if_pos (by simp only [Bool.and_eq_true, decide_eq_true_eq]; omega)]
  exact toNat_ofNat_valid (by omega)

theorem isUp_pyToUpper_low {c : Char} (h : isLowAZ c = true) :
    isUp (pyToUpper c) = true := by
  have ht := toNat_pyToUpper_low h
  rw [isLowAZ_iff] at h
  rw [isUp_iff, ht]
  omega

theorem pyToLower_pyToUpper_low {c : Char} (h : isLowAZ c = true) :
    pyToLower (pyToUpper c) = c := by
  have ht := toNat_pyToUpper_low h
  rw [isLowAZ_iff] at h
  rw [pyToLower, if_pos (by simp only [Bool.and_eq_true, decide_eq_true_eq]; omega), ht]
  have h32 : c.toNat - 32 + 32 = c.toNat := by omega
  rw [h32, Char.ofNat_toNat]

theorem ne_underscore_of_low {c : Char} (h : isLowAZ c = true) : c ≠ '_' := by
  rw [isLowAZ_iff] at h
  intro hc
  subst hc
  simp at h

theorem ne_newline_of_low {c : Char} (h : isLowAZ c = true) : c ≠ '\n' := by
  rw [isLowAZ_iff] at h
  intro hc
  subst hc
  simp at h

/-! ### The substitution of `snakecase` equals the one-pass scanner -/

theorem matchAt_eq_matchAtB (s : List Char) (i : Nat) :
    matchAt s i = matchAtB false s i := by
  cases i with
  | zero => simp [matchAt, matchAtB]
  | succ j =>
    simp [matchAt, matchAtB, Bool.and_comm, Bool.and_left_comm, Bool.and_assoc]

theorem matchAtB_cons (b : Bool) (c : Char) (rest : List Char) (i : Nat) :
    matchAtB (!(isUp c)) rest i = matchAtB b (c :: rest) (i + 1) := by
  cases i with
  | zero =>
    simp [matchAtB]
    rw [decide_eq_decide.mpr (show (1 : Nat) < rest.length ↔ 2 < rest.length + 1 by omega)]
  | succ j =>
    simp [matchAtB, List.getD_cons_succ, Nat.succ_lt_succ_iff]

theorem matchAt_bounds {s : List Char} {i : Nat} (h : matchAt s i = true) :
    1 ≤ i ∧ i + 1 < s.length := by
  simp only [matchAt, Bool.and_eq_true, decide_eq_true_eq] at h
  exact ⟨h.1.1.1.1, h.1.1.1.2⟩

theorem reSubScan_eq_self : ∀ (s : List Char) (b : Bool),
    (∀ i, matchAtB b s i = false) → reSubScan b s = s := by
  intro s
  induction s with
  | nil => intro b _; rfl
  | cons c rest IH =>
    intro b h
    cases rest with
    | nil => rfl
    | cons d rest' =>
      have hguard : (b && isUp c && decide (d ≠ '\n')) = false := by
        cases hb : b
        · rfl
        · cases hu : isUp c
          · rfl
          · cases hd : decide (d ≠ '\n')
            · rfl
            · exfalso
              have h0 := h 0
              rw [matchAtB] at h0
              simp [hb, hu, hd] at h0
      rw [reSubScan, if_neg (by rw [hguard]; simp)]
      rw [IH (!(isUp c)) (fun i => by rw [matchAtB_cons (b := b)]; exact h (i + 1))]

theorem reSubScan_eq_match : ∀ (i : Nat) (s : List Char) (b : Bool),
    matchAtB b s i = true → (∀ j, j < i → matchAtB b s j = false) →
    reSubScan b s = s.take i ++ '_' :: s.getD i ' ' :: s.getD (i + 1) ' ' ::
      reSubScan false (s.drop (i + 2)) := by
  intro i
  induction i with
  | zero =>
    intro s b hm _
    simp only [matchAtB, if_pos rfl, Bool.and_eq_true, decide_eq_true_eq] at hm
    obtain ⟨⟨⟨hb, hup⟩, hlen⟩, hnl⟩ := hm
    match s, hlen with
    | c :: d :: rest, _ =>
      subst hb
      simp only [List.getD_cons_zero] at hup
      have hd : d ≠ '\n' := by simpa using hnl
      simp [reSubScan, hup, hd, List.getD_cons_zero, List.getD_cons_succ]
  | succ i' IH =>
    intro s b hm hmin
    have hlen : i' + 1 + 1 < s.length := by
      simp only [matchAtB, Bool.and_eq_true, decide_eq_true_eq] at hm
      exact hm.1.2
    match s, hlen with
    | c :: d :: rest, _ =>
      have h0 := hmin 0 (Nat.succ_pos _)
      have hguard : (b && isUp c && decide (d ≠ '\n')) = false := by
        cases hb : b
        · rfl
        · cases hu : isUp c
          · rfl
          · cases hd : decide (d ≠ '\n')
            · rfl
            · exfalso
              rw [matchAtB] at h0
              simp [hb, hu, hd] at h0
      rw [reSubScan, if_neg (by rw [hguard]; simp)]
      rw [IH (d :: rest) (!(isUp c))
        (by rw [matchAtB_cons (b := b)]; exact hm)
        (fun j hj => by rw [matchAtB_cons (b := b)]; exact hmin (j + 1) (by omega))]
      simp [List.take_succ_cons, List.getD_cons_succ, List.drop_succ_cons]

theorem find?_range_some {n : Nat} {p : Nat → Bool} {i : Nat}
    (h : (List.range n).find? p = some i) :
    p i = true ∧ ∀ j, j < i → p j = false := by
  induction n with
  | zero => simp [List.range_zero] at h
  | succ n IH =>
    rw [List.range_succ, List.find?_append] at h
    cases hn : (List.range n).find? p with
    | some i' =>
      rw [hn, Option.or_some] at h
      exact IH (hn.trans h)
    | none =>
      rw [hn, Option.none_or, List.find?_cons] at h
      rcases hp : p n with _ | _
      · rw [hp] at h
        simp at h
      · rw [hp] at h
        simp only [cond_true, Option.some.injEq] at h
        subst h
        refine ⟨hp, fun j hj => ?_⟩
        have := List.find?_eq_none.mp hn j (List.mem_range.mpr hj)
        simpa using this

theorem findCap_some {s : List Char} {i : Nat} (h : findCap s = some i) :
    matchAt s i = true ∧ ∀ j, j < i → matchAt s j = false :=
  find?_range_some h

theorem findCap_none {s : List Char} (h : findCap s = none) :
    ∀ i, matchAt s i = false := by
  intro i
  by_cases hi : i < s.length
  · have := List.find?_eq_none.mp h i (List.mem_range.mpr hi)
    simpa using this
  · have hd : decide (i + 1 < s.length) = false := by
      simp only [decide_eq_false_iff_not]
      omega
    simp [matchAt, hd]

theorem snakeSubAux_eq_scan : ∀ (fuel : Nat) (s : List Char), s.length ≤ fuel →
    snakeSubAux fuel s = reSubScan false s := by
  intro fuel
  induction fuel with
  | zero =>
    intro s h
    have : s = [] := List.length_eq_zero.mp (Nat.le_zero.mp h)
    subst this
    rfl
  | succ fuel IH =>
    intro s h
    cases hf : findCap s with
    | none =>
      simp only [snakeSubAux, hf]
      exact (reSubScan_eq_self s false
        (fun i => by rw [← matchAt_eq_matchAtB]; exact findCap_none hf i)).symm
    | some i =>
      obtain ⟨hm, hmin⟩ := findCap_some hf
      obtain ⟨hi1, hilen⟩ := matchAt_bounds hm
      simp only [snakeSubAux, hf]
      rw [reSubScan_eq_match i s false
        (by rw [← matchAt_eq_matchAtB]; exact hm)
        (fun j hj => by rw [← matchAt_eq_matchAtB]; exact hmin j hj)]
      rw [IH (s.drop (i + 2)) (by rw [List.length_drop]; omega)]

theorem snakeSub_eq_scan (s : List Char) : snakeSub s = reSubScan false s :=
  snakeSubAux_eq_scan s.length s le_rfl

/-! ### Identifiers built from underscore-separated lowercase words -/

theorem WordsOk.lowerWords : ∀ {ws : List (List Char)}, WordsOk ws →
    ∀ w ∈ ws, LowerWord w := by
  intro ws
  induction ws with
  | nil => intro _ w hw; cases hw
  | cons w1 ws' IH =>
    intro h w hw
    rw [List.mem_cons] at hw
    have h1 : LowerWord w1 ∧ WordsOk ws' := by
      cases ws' with
      | nil => exact ⟨h.1, trivial⟩
      | cons w2 ws'' => exact ⟨h.1, h.2.2⟩
    rcases hw with rfl | hw
    · exact h1.1
    · exact IH h1.2 w hw

theorem pyToLower_underscore : pyToLower '_' = '_' := by decide

theorem map_pyToLower_low {t : List Char} (h : ∀ c ∈ t, isLowAZ c = true) :
    t.map pyToLower = t := by
  induction t with
  | nil => rfl
  | cons c cs IH =>
    rw [List.map_cons, pyToLower_low (h c (List.mem_cons_self c cs)),
      IH (fun x hx => h x (List.mem_cons_of_mem c hx))]

theorem pyCapitalize_low {c : Char} {t : List Char} (h : ∀ x ∈ t, isLowAZ x = true) :
    pyCapitalize (c :: t) = pyToUpper c :: t := by
  rw [pyCapitalize, map_pyToLower_low h]

theorem splitU_no_sep {w : List Char} (h : '_' ∉ w) : splitU w = [w] := by
  induction w with
  | nil => rfl
  | cons c cs IH =>
    have hc : c ≠ '_' := fun hh => h (hh ▸ List.mem_cons_self c cs)
    simp only [splitU, if_neg hc, IH (fun hm => h (List.mem_cons_of_mem c hm))]

theorem splitU_sep_append {w : List Char} (r : List Char) (h : '_' ∉ w) :
    splitU (w ++ '_' :: r) = w :: splitU r := by
  induction w with
  | nil => simp [splitU]
  | cons c cs IH =>
    have hc : c ≠ '_' := fun hh => h (hh ▸ List.mem_cons_self c cs)
    have hcs := IH (fun hm => h (List.mem_cons_of_mem c hm))
    simp only [List.cons_append, splitU, if_neg hc]
    rw [show splitU (cs.append ('_' :: r)) = cs :: splitU r from hcs]

theorem splitU_joinU : ∀ (words : List (List Char)), words ≠ [] →
    (∀ w ∈ words, '_' ∉ w) → splitU (joinUnderscore words) = words := by
  intro words
  induction words with
  | nil => intro h; contradiction
  | cons w ws IH =>
    intro _ h
    cases ws with
    | nil => exact splitU_no_sep (h w (List.mem_cons_self _ _))
    | cons w2 ws' =>
      show splitU (w ++ '_' :: joinUnderscore (w2 :: ws')) = _
      rw [splitU_sep_append _ (h w (List.mem_cons_self _ _)),
        IH (by simp) (fun u hu => h u (List.mem_cons_of_mem w hu))]

theorem joinU_eq_flatten (w0 : List Char) : ∀ (ws : List (List Char)),
    joinUnderscore (w0 :: ws) = w0 ++ (ws.map (fun w => '_' :: w)).flatten := by
  intro ws
  induction ws generalizing w0 with
  | nil => simp [joinUnderscore]
  | cons w1 ws' IH =>
    show w0 ++ '_' :: joinUnderscore (w1 :: ws') = _
    rw [IH w1]
    simp

/-! ### Scanner steps used by the round-trip proof -/

theorem getD_mem_of_lt : ∀ (t : List Char) (i : Nat), i < t.length → t.getD i ' ' ∈ t := by
  intro t
  induction t with
  | nil => intro i h; simp at h
  | cons c t' IH =>
    intro i h
    cases i with
    | zero => exact List.mem_cons_self _ _
    | succ j =>
      rw [List.getD_cons_succ]
      exact List.mem_cons_of_mem c (IH j (by simpa using h))

theorem reSubScan_low_id {t : List Char} (h : ∀ c ∈ t, isUp c = false) (b : Bool) :
    reSubScan b t = t := by
  apply reSubScan_eq_self
  intro i
  by_cases hi : i < t.length
  · have hu : isUp (t.getD i ' ') = false := h _ (getD_mem_of_lt t i hi)
    simp only [matchAtB, hu]
    simp
  · have hd : decide (i + 1 < t.length) = false := by
      simp only [decide_eq_false_iff_not]
      omega
    simp only [matchAtB, hd]
    simp

theorem reSubScan_cons_low {c : Char} (hc : isUp c = false) (b : Bool) (t : List Char) :
    reSubScan b (c :: t) = c :: reSubScan true t := by
  cases t with
  | nil => rfl
  | cons d t' => simp [reSubScan, hc]

theorem reSubScan_skip : ∀ (u : List Char), (∀ c ∈ u, isUp c = false) →
    ∀ (b : Bool) (r : List Char), u ≠ [] →
    reSubScan b (u ++ r) = u ++ reSubScan true r := by
  intro u
  induction u with
  | nil => intro _ b r h; contradiction
  | cons x u' IH =>
    intro hlow b r _
    rw [List.cons_append, reSubScan_cons_low (hlow x (List.mem_cons_self _ _)) b]
    cases hu' : u' with
    | nil => simp
    | cons y u3 =>
      rw [← hu', IH (fun c hc => hlow c (List.mem_cons_of_mem x hc)) true r (by simp [hu'])]
      rfl

theorem reSubScan_match_step {c : Char} (hc : isUp c = true) (d : Char) (hd : d ≠ '\n')
    (t : List Char) :
    reSubScan true (c :: d :: t) = '_' :: c :: d :: reSubScan false t := by
  simp [reSubScan, hc, hd]

theorem reSubScan_capWords : ∀ (ws : List (List Char)), WordsOk ws →
    reSubScan true ((ws.map pyCapitalize).flatten) =
      (ws.map (fun w => '_' :: pyCapitalize w)).flatten := by
  intro ws
  induction ws with
  | nil => intro _; rfl
  | cons w ws' IH =>
    intro hok
    cases ws' with
    | nil =>
      obtain ⟨⟨hne, hlow⟩, hlen⟩ := hok
      rcases w with _ | ⟨c, _ | ⟨d, t⟩⟩
      · exact absurd rfl hne
      · simp at hlen
      · have hlowt : ∀ x ∈ d :: t, isLowAZ x = true :=
          fun x hx => hlow x (List.mem_cons_of_mem c hx)
        simp only [List.map_cons, List.map_nil, List.flatten_cons, List.flatten_nil,
          List.append_nil, pyCapitalize_low hlowt]
        rw [reSubScan_match_step (isUp_pyToUpper_low (hlow c (List.mem_cons_self _ _))) d
          (ne_newline_of_low (hlowt d (List.mem_cons_self _ _))) t]
        rw [reSubScan_low_id
          (fun x hx => isUp_of_low (hlowt x (List.mem_cons_of_mem d hx))) false]
    | cons w2 ws'' =>
      obtain ⟨⟨hne, hlow⟩, hlen, hok'⟩ := hok
      rcases w with _ | ⟨c, _ | ⟨d, _ | ⟨e, t⟩⟩⟩
      · exact absurd rfl hne
      · simp at hlen
      · simp at hlen
      · have hlowt : ∀ x ∈ d :: e :: t, isLowAZ x = true :=
          fun x hx => hlow x (List.mem_cons_of_mem c hx)
        rw [List.map_cons, List.flatten_cons, pyCapitalize_low hlowt]
        rw [show (pyToUpper c :: d :: e :: t) ++ (List.map pyCapitalize (w2 :: ws'')).flatten
            = pyToUpper c :: d :: ((e :: t) ++ (List.map pyCapitalize (w2 :: ws'')).flatten)
          from rfl]
        rw [reSubScan_match_step (isUp_pyToUpper_low (hlow c (List.mem_cons_self _ _))) d
          (ne_newline_of_low (hlowt d (List.mem_cons_self _ _)))]
        rw [reSubScan_skip (e :: t)
          (fun x hx => isUp_of_low (hlowt x (List.mem_cons_of_mem d hx)))
          false _ (by simp)]
        rw [IH hok']
        simp only [List.map_cons, List.flatten_cons, pyCapitalize_low hlowt,
          List.cons_append, List.append_assoc]

theorem map_pyToLower_capWords : ∀ (ws : List (List Char)), (∀ w ∈ ws, LowerWord w) →
    ((ws.map (fun w => '_' :: pyCapitalize w)).flatten).map pyToLower =
      (ws.map (fun w => '_' :: w)).flatten := by
  intro ws
  induction ws with
  | nil => intro _; rfl
  | cons w ws' IH =>
    intro h
    obtain ⟨hne, hlow⟩ := h w (List.mem_cons_self _ _)
    rcases w with _ | ⟨c, t⟩
    · exact absurd rfl hne
    · have hlowt : ∀ x ∈ t, isLowAZ x = true :=
        fun x hx => hlow x (List.mem_cons_of_mem c hx)
      simp only [List.map_cons, List.flatten_cons, List.map_append]
      rw [IH (fun u hu => h u (List.mem_cons_of_mem _ hu))]
      congr 1
      rw [pyCapitalize_low hlowt]
      simp only [List.map_cons]
      rw [pyToLower_underscore, pyToLower_pyToUpper_low (hlow c (List.mem_cons_self _ _)),
        map_pyToLower_low hlowt]

/-! ### Claim C1 -/

/-- Claim C1 as stated is false: `"a_b"` is composed of the
underscore-separated lowercase words `"a"` and `"b"`, yet
`camelcase "a_b" = "aB"` and `snakecase "aB" = "ab"` (the regex
`([^A-Z]+?)([A-Z])(.)` needs a character after the uppercase letter, so no
underscore is reinserted before a trailing single-letter word), and
`"ab" ≠ "a_b"`. -/
theorem C1_counterexample :
    LowerWord ['a'] ∧ LowerWord ['b'] ∧
    joinUnderscore [['a'], ['b']] = ['a', '_', 'b'] ∧
    camelcase ['a', '_', 'b'] = ['a', 'B'] ∧
    snakecase ['a', 'B'] = ['a', 'b'] ∧
    snakecase (camelcase (joinUnderscore [['a'], ['b']])) ≠ joinUnderscore [['a'], ['b']] :=
  ⟨⟨by decide, by decide⟩, ⟨by decide, by decide⟩, by decide, by decide, by decide, by decide⟩

/-- Claim C1, amended: for an identifier composed of underscore-separated
nonempty lowercase ASCII words, `snakecase (camelcase s) = s` holds provided
every word after the first has at least two letters and every word after
the first other than the last has at least three (`WordsOk`); without
these length bounds the round trip can fail (`C1_counterexample`). -/
theorem C1_roundtrip (w0 : List Char) (ws : List (List Char))
    (h0 : LowerWord w0) (hws : WordsOk ws) :
    snakecase (camelcase (joinUnderscore (w0 :: ws))) = joinUnderscore (w0 :: ws) := by
  obtain ⟨hne0, hlow0⟩ := h0
  cases ws with
  | nil =>
    have hnu : '_' ∉ w0 := fun hm => ne_underscore_of_low (hlow0 _ hm) rfl
    show snakecase (camelcase w0) = w0
    rw [camelcase, if_neg hnu, snakecase, snakeSub_eq_scan,
      reSubScan_low_id (fun c hc => isUp_of_low (hlow0 c hc)) false,
      map_pyToLower_low hlow0]
  | cons w1 ws' =>
    have hlowAll : ∀ w ∈ w1 :: ws', LowerWord w := WordsOk.lowerWords hws
    have hfree : ∀ w ∈ w0 :: w1 :: ws', '_' ∉ w := by
      intro w hw hm
      rw [List.mem_cons] at hw
      rcases hw with rfl | hw
      · exact ne_underscore_of_low (hlow0 _ hm) rfl
      · exact ne_underscore_of_low ((hlowAll w hw).2 _ hm) rfl
    have hmem : '_' ∈ joinUnderscore (w0 :: w1 :: ws') := by
      show '_' ∈ w0 ++ '_' :: joinUnderscore (w1 :: ws')
      exact List.mem_append_right _ (List.mem_cons_self _ _)
    rw [camelcase, if_pos hmem, splitU_joinU _ (by simp) hfree]
    show snakecase (w0 ++ ((w1 :: ws').map pyCapitalize).flatten) = _
    rw [snakecase, snakeSub_eq_scan,
      reSubScan_skip w0 (fun c hc => isUp_of_low (hlow0 c hc)) false _ hne0,
      reSubScan_capWords _ hws,
      List.map_append, map_pyToLower_low hlow0, map_pyToLower_capWords _ hlowAll,
      joinU_eq_flatten]

/-- Concrete instance of the amended claim C1: the round trip is the
identity on `"foo_bar"`. -/
theorem C1_roundtrip_witness :
    LowerWord ['f', 'o', 'o'] ∧ WordsOk [['b', 'a', 'r']] ∧
    snakecase (camelcase (joinUnderscore [['f', 'o', 'o'], ['b', 'a', 'r']])) =
      joinUnderscore [['f', 'o', 'o'], ['b', 'a', 'r']] := by
  have h0 : LowerWord ['f', 'o', 'o'] := ⟨by decide, by decide⟩
  have hws : WordsOk [['b', 'a', 'r']] := ⟨⟨by decide, by decide⟩, by decide⟩
  exact ⟨h0, hws, C1_roundtrip ['f', 'o', 'o'] [['b', 'a', 'r']] h0 hws⟩

/-! ### Claim C2 -/

theorem splitU_ne_nil : ∀ s : List Char, splitU s ≠ [] := by
  intro s
  cases s with
  | nil => simp [splitU]
  | cons c cs =>
    rw [splitU]
    by_cases hc : c = '_'
    · rw [if_pos hc]
      simp
    · rw [if_neg hc]
      cases splitU cs <;> simp

/-- `splitU` agrees with the standard library's `List.splitOn`. -/
theorem splitU_eq_splitOn : ∀ s : List Char, splitU s = s.splitOn '_' := by
  intro s
  induction s with
  | nil => rfl
  | cons c cs IH =>
    rw [List.splitOn, List.splitOnP_cons, splitU]
    by_cases hc : c = '_'
    · subst hc
      rw [if_pos rfl, if_pos (by simp)]
      rw [IH, List.splitOn]
    · rw [if_neg hc, if_neg (by simp [hc])]
      rcases hsp : splitU cs with _ | ⟨g, gs⟩
      · exact absurd hsp (splitU_ne_nil cs)
      · have : cs.splitOn '_' = g :: gs := by rw [← IH, hsp]
        rw [List.splitOn] at this
        rw [this]
        rfl

/-- Claim C2 as stated is false: on `"a_bC"` the code returns `"aBc"`
(Python `capitalize` lowercases the tail of the segment `"bC"`), while the
claim's description returns `"aBC"`. -/
theorem C2_counterexample :
    camelcase ['a', '_', 'b', 'C'] = ['a', 'B', 'c'] ∧
    camelcaseClaimC2 ['a', '_', 'b', 'C'] = ['a', 'B', 'C'] ∧
    camelcase ['a', '_', 'b', 'C'] ≠ camelcaseClaimC2 ['a', '_', 'b', 'C'] :=
  ⟨by decide, by decide, by decide⟩

/-- Claim C2, amended: for every string `s`, `camelcase s` returns `s`
unchanged when `s` contains no underscore; otherwise it splits `s` on `_`,
keeps the first segment as-is, and replaces every subsequent segment by
its Python `capitalize` — first character uppercased, remaining characters
lowercased — concatenating with no separator, an empty segment
contributing nothing. -/
theorem C2_camelcase (s : List Char) : camelcase s = camelcaseAmendedC2 s := by
  rw [camelcase, camelcaseAmendedC2, splitU_eq_splitOn]

/-! ### Claim C3 -/

/-- Claim C3 as stated is false: in `"aBcDe"` both `B` and `D` are
preceded by a non-uppercase run and followed by a character, so the
claim's description yields `"a_bc_de"`; but the regex substitution is
non-overlapping — the match at `B` consumes the following `c`, which can
then no longer serve as the preceding run of `D` — so the code yields
`"a_bcde"`. -/
theorem C3_counterexample :
    snakecase ['a', 'B', 'c', 'D', 'e'] = ['a', '_', 'b', 'c', 'd', 'e'] ∧
    snakecaseClaimC3 ['a', 'B', 'c', 'D', 'e'] = ['a', '_', 'b', 'c', '_', 'd', 'e'] ∧
    snakecase ['a', 'B', 'c', 'D', 'e'] ≠ snakecaseClaimC3 ['a', 'B', 'c', 'D', 'e'] :=
  ⟨by decide, by decide, by decide⟩

/-- Claim C3, amended: `snakecase s` equals the result of a single left to
right scan (`reSubScan`) that inserts `_` before every uppercase letter
which is immediately preceded by a non-uppercase character not already
consumed by an earlier insertion and is followed by at least one more
character other than a newline (the regex `.` without `re.DOTALL` does not
match `'\n'`), each insertion consuming the uppercase letter and the
character after it, followed by lowercasing the whole string. -/
theorem C3_snakecase (s : List Char) :
    snakecase s = (reSubScan false s).map pyToLower := by
  rw [snakecase, snakeSub_eq_scan]

/-! ### Dict lemmas -/

theorem mem_dictSet : ∀ {l : List (String × Field)} {k : String} {v : Field}
    {q : String × Field}, q ∈ dictSet l k v → q = (k, v) ∨ q ∈ l := by
  intro l
  induction l with
  | nil =>
    intro k v q h
    rw [dictSet] at h
    exact Or.inl (List.mem_singleton.mp h)
  | cons p rest IH =>
    intro k v q h
    obtain ⟨k', v'⟩ := p
    rw [dictSet] at h
    by_cases hk : k' = k
    · rw [if_pos hk] at h
      rcases List.mem_cons.mp h with h | h
      · exact Or.inl h
      · exact Or.inr (List.mem_cons_of_mem _ h)
    · rw [if_neg hk] at h
      rcases List.mem_cons.mp h with h | h
      · exact Or.inr (h ▸ List.mem_cons_self _ _)
      · rcases IH h with h' | h'
        · exact Or.inl h'
        · exact Or.inr (List.mem_cons_of_mem _ h')

theorem lookup_dictSet_ne : ∀ {l : List (String × Field)} {k k' : String} {v : Field},
    k ≠ k' → (dictSet l k' v).lookup k = l.lookup k := by
  intro l
  induction l with
  | nil =>
    intro k k' v h
    rw [dictSet, List.lookup_cons, List.lookup_nil]
    rw [show (k == k') = false from beq_eq_false_iff_ne.mpr h]
  | cons p rest IH =>
    intro k k' v h
    obtain ⟨a, b⟩ := p
    rw [dictSet]
    by_cases ha : a = k'
    · rw [if_pos ha]
      subst ha
      rw [List.lookup_cons, List.lookup_cons,
        show (k == a) = false from beq_eq_false_iff_ne.mpr h]
    · rw [if_neg ha, List.lookup_cons, List.lookup_cons]
      cases k == a
      · exact IH h
      · rfl

theorem lookup_dictSet_self : ∀ {l : List (String × Field)} {k : String} {v : Field},
    (dictSet l k v).lookup k = some v := by
  intro l
  induction l with
  | nil =>
    intro k v
    rw [dictSet]
    exact List.lookup_cons_self
  | cons p rest IH =>
    intro k v
    obtain ⟨a, b⟩ := p
    rw [dictSet]
    by_cases ha : a = k
    · rw [if_pos ha]
      exact List.lookup_cons_self
    · rw [if_neg ha, List.lookup_cons,
        show (k == a) = false from beq_eq_false_iff_ne.mpr (fun hh => ha hh.symm)]
      exact IH

theorem lookup_map_alterField {l : List (String × Field)} {n : String}
    (stc cts : Bool) :
    (l.map (fun p => (p.1, alterField stc cts p.1 p.2))).lookup n =
      (l.lookup n).map (alterField stc cts n) := by
  induction l with
  | nil => rfl
  | cons p rest IH =>
    obtain ⟨k, v⟩ := p
    simp only [List.map_cons, List.lookup_cons]
    cases hnk : n == k
    · exact IH
    · rw [show n = k from beq_iff_eq.mp hnk]
      rfl

theorem lookup_eq_none_of_keys {V : Type} : ∀ (l : List (String × V)) (k : String),
    (∀ q ∈ l, q.1 ≠ k) → l.lookup k = none := by
  intro l k
  induction l with
  | nil => intro _; rfl
  | cons q rest IH =>
    intro h
    obtain ⟨a, b⟩ := q
    rw [List.lookup_cons,
      show (k == a) = false from
        beq_eq_false_iff_ne.mpr (fun hh => h (a, b) (List.mem_cons_self _ _) hh.symm)]
    exact IH (fun q hq => h q (List.mem_cons_of_mem _ hq))

theorem lookup_append_of_no_key {V : Type} (l1 l2 : List (String × V)) (k : String)
    (h : ∀ q ∈ l2, q.1 ≠ k) : (l1 ++ l2).lookup k = l1.lookup k := by
  rw [List.lookup_append, lookup_eq_none_of_keys l2 k h]
  cases l1.lookup k <;> rfl

theorem exceptBind_ok {α β : Type} (a : α) (f : α → Except PyErr β) :
    (Except.ok a >>= f) = f a := rfl

theorem exceptBind_error {α β : Type} (e : PyErr) (f : α → Except PyErr β) :
    ((Except.error e : Except PyErr α) >>= f) = Except.error e := rfl

/-- The cons case of `generate_nested_fields` in the source's shape: the
entry's field is a `fields.Nested` around a full nested
`GoldenSchema`. -/
theorem generate_nested_fields_cons
    (snake_to_camel camel_to_snake new_obj : Bool) (key : String) (cls : SqlaCls)
    (many : Bool) (sub rest : NestedMap) (new_fields : List (String × Field)) :
    generate_nested_fields snake_to_camel camel_to_snake new_obj
      (.cons key cls many sub rest) new_fields = (do
      let subSchema ← GoldenSchema.init cls sub new_obj snake_to_camel camel_to_snake []
      let fieldtype := Field.nested subSchema.snake_to_camel subSchema.camel_to_snake
        subSchema.new_obj subSchema.fields many none none none
      generate_nested_fields snake_to_camel camel_to_snake new_obj rest
        (dictSet new_fields key fieldtype)) := by
  simp only [generate_nested_fields, nestedFieldsGo, GoldenSchema.init, generate_fields]
  cases CaseChangingSchema.init snake_to_camel camel_to_snake [] with
  | error e => simp only [exceptBind_error]
  | ok st =>
    simp only [exceptBind_ok]
    cases generate_column_fields snake_to_camel camel_to_snake cls.columns with
    | error e => simp only [exceptBind_error]
    | ok colFields =>
      simp only [exceptBind_ok]
      cases nestedFieldsGo snake_to_camel camel_to_snake new_obj sub colFields with
      | error e => simp only [exceptBind_error]
      | ok subFields => simp only [exceptBind_ok]

/-! ### Claim C9 -/

/-- Claim C9: for every field set, constructing a serializer with both
casing flags true fails at construction with the `ValueError` of
schema.py line 84 (the concrete exception realizing the spec's
`InvalidConfiguration`); with at most one flag true
`CaseChangingSchema.__init__` succeeds and stores the policy as given
(keys of the field dict unchanged).  `GoldenSchema.__init__` rejects both
flags through the same check, and `EnumField.__init__` through its own
(line 32). -/
theorem C9_casing_flags (stc cts : Bool) (declared : List (String × Field)) :
    (stc = true → cts = true →
      CaseChangingSchema.init stc cts declared =
        .error (.valueError "Only one of snake_to_camel or camel_to_snake can be True")) ∧
    (¬(stc = true ∧ cts = true) →
      ∃ st, CaseChangingSchema.init stc cts declared = .ok st ∧
        st.snake_to_camel = stc ∧ st.camel_to_snake = cts ∧
        st.fields.map Prod.fst = declared.map Prod.fst) ∧
    (stc = true → cts = true → ∀ (cls : SqlaCls) (nm : NestedMap) (no : Bool),
      GoldenSchema.init cls nm no stc cts declared =
        .error (.valueError "Only one of snake_to_camel or camel_to_snake can be True")) ∧
    (∀ an : Bool, EnumField.init true true an = .error .enumBothCasing) := by
  refine ⟨?_, ?_, ?_, fun an => rfl⟩
  · intro h1 h2
    subst h1
    subst h2
    rfl
  · intro h
    have hb : (stc && cts) = false := by
      cases stc <;> cases cts <;> simp_all
    refine ⟨alter_case
      { snake_to_camel := stc, camel_to_snake := cts, new_obj := false,
        fields := declared }, ?_, rfl, rfl, ?_⟩
    · rw [CaseChangingSchema.init, if_neg (by rw [hb]; simp)]
    · rw [alter_case]
      simp [List.map_map, Function.comp]
  · intro h1 h2 cls nm no
    subst h1
    subst h2
    rfl

/-- Concrete instances of claim C9: both flags reject, a single flag is
stored. -/
theorem C9_casing_flags_witness :
    CaseChangingSchema.init true true [] =
      .error (.valueError "Only one of snake_to_camel or camel_to_snake can be True") ∧
    (∃ st, CaseChangingSchema.init true false [] = .ok st ∧
      st.snake_to_camel = true ∧ st.camel_to_snake = false ∧
      st.fields.map Prod.fst = ([] : List (String × Field)).map Prod.fst) ∧
    GoldenSchema.init ⟨[]⟩ .nil false true true [] =
      .error (.valueError "Only one of snake_to_camel or camel_to_snake can be True") :=
  ⟨(C9_casing_flags true true []).1 rfl rfl,
    (C9_casing_flags true false []).2.1 (by simp),
    (C9_casing_flags true true []).2.2.1 rfl rfl ⟨[]⟩ .nil false⟩

/-! ### Claim C8 -/

theorem columnField_ARRAY (stc cts : Bool) (item : ColType) (nl : Bool) :
    columnField stc cts ⟨.ARRAY item, nl⟩ =
      (match FIELD_TYPE_MAP item with
        | some itemCls =>
          Except.ok (Field.basic .List (some itemCls) nl false false none none none)
        | none => Except.error (.keyError item)) := rfl

theorem columnField_pgARRAY (stc cts : Bool) (item : ColType) (nl : Bool) :
    columnField stc cts ⟨.pgARRAY item, nl⟩ =
      (match FIELD_TYPE_MAP item with
        | some itemCls =>
          Except.ok (Field.basic .List (some itemCls) nl false false none none none)
        | none => Except.error (.keyError item)) := rfl

theorem columnField_ENUM (stc cts : Bool) (nl : Bool) :
    columnField stc cts ⟨.ENUM, nl⟩ = EnumField.init stc cts nl := rfl

theorem columnField_other (stc cts : Bool) (n : Nat) (nl : Bool) :
    columnField stc cts ⟨.other n, nl⟩ = .error (.keyError (.other n)) := rfl

theorem columnField_classify (stc cts : Bool) (hflags : (stc && cts) = false)
    (val : Column) :
    (∃ f, columnField stc cts val = .ok f) ∨
    (∃ t, columnField stc cts val = .error (.keyError t)) := by
  obtain ⟨ty, nl⟩ := val
  cases ty with
  | ARRAY item =>
    cases hit : FIELD_TYPE_MAP item with
    | none => exact Or.inr ⟨item, by rw [columnField_ARRAY, hit]⟩
    | some ic => exact Or.inl ⟨_, by rw [columnField_ARRAY, hit]⟩
  | pgARRAY item =>
    cases hit : FIELD_TYPE_MAP item with
    | none => exact Or.inr ⟨item, by rw [columnField_pgARRAY, hit]⟩
    | some ic => exact Or.inl ⟨_, by rw [columnField_pgARRAY, hit]⟩
  | ENUM =>
    exact Or.inl ⟨_, by rw [columnField_ENUM, EnumField.init, if_neg (by rw [hflags]; simp)]⟩
  | other n => exact Or.inr ⟨.other n, columnField_other stc cts n nl⟩
  | TEXT => exact Or.inl ⟨_, rfl⟩
  | String => exact Or.inl ⟨_, rfl⟩
  | JSON => exact Or.inl ⟨_, rfl⟩
  | INTEGER => exact Or.inl ⟨_, rfl⟩
  | Integer => exact Or.inl ⟨_, rfl⟩
  | BIGINT => exact Or.inl ⟨_, rfl⟩
  | TIMESTAMP => exact Or.inl ⟨_, rfl⟩
  | DATE => exact Or.inl ⟨_, rfl⟩
  | BOOLEAN => exact Or.inl ⟨_, rfl⟩
  | Boolean => exact Or.inl ⟨_, rfl⟩
  | UUID => exact Or.inl ⟨_, rfl⟩

/-- A column whose type (or array element type) is not in
`FIELD_TYPE_MAP` makes `columnField` raise the dict `KeyError`. -/
theorem columnField_bad (stc cts : Bool) (val : Column)
    (hbad : FIELD_TYPE_MAP val.type = none ∨
      (∃ item, (val.type = .ARRAY item ∨ val.type = .pgARRAY item) ∧
        FIELD_TYPE_MAP item = none)) :
    ∃ t, columnField stc cts val = .error (.keyError t) := by
  obtain ⟨ty, nl⟩ := val
  rcases hbad with hnone | ⟨item, harr, hitem⟩
  · cases ty <;> simp_all [FIELD_TYPE_MAP]
    · exact ⟨_, columnField_other stc cts _ nl⟩
  · rcases harr with h | h
    · cases h
      exact ⟨item, by rw [columnField_ARRAY, hitem]⟩
    · cases h
      exact ⟨item, by rw [columnField_pgARRAY, hitem]⟩

theorem generate_column_fields_classify (stc cts : Bool)
    (hflags : (stc && cts) = false) :
    ∀ columns : List (String × Column),
      (∃ fs, generate_column_fields stc cts columns = .ok fs) ∨
      (∃ t, generate_column_fields stc cts columns = .error (.keyError t)) := by
  intro columns
  induction columns with
  | nil => exact Or.inl ⟨[], rfl⟩
  | cons q rest IH =>
    obtain ⟨key, val⟩ := q
    rcases columnField_classify stc cts hflags val with ⟨f, hf⟩ | ⟨t, ht⟩
    · rcases IH with ⟨fs, hfs⟩ | ⟨t, ht⟩
      · exact Or.inl ⟨(key, f) :: fs,
          by rw [generate_column_fields, hf, exceptBind_ok, hfs, exceptBind_ok]⟩
      · exact Or.inr ⟨t,
          by rw [generate_column_fields, hf, exceptBind_ok, ht, exceptBind_error]⟩
    · exact Or.inr ⟨t, by rw [generate_column_fields, ht, exceptBind_error]⟩

theorem generate_column_fields_bad (stc cts : Bool)
    (hflags : (stc && cts) = false) :
    ∀ columns : List (String × Column),
      (∃ p ∈ columns, FIELD_TYPE_MAP p.2.type = none ∨
        (∃ item, (p.2.type = .ARRAY item ∨ p.2.type = .pgARRAY item) ∧
          FIELD_TYPE_MAP item = none)) →
      ∃ t, generate_column_fields stc cts columns = .error (.keyError t) := by
  intro columns
  induction columns with
  | nil =>
    rintro ⟨p, hp, _⟩
    cases hp
  | cons q rest IH =>
    rintro ⟨p, hp, hbad⟩
    obtain ⟨key, val⟩ := q
    rcases List.mem_cons.mp hp with rfl | hp
    · obtain ⟨t, ht⟩ := columnField_bad stc cts val hbad
      exact ⟨t, by rw [generate_column_fields, ht, exceptBind_error]⟩
    · rcases columnField_classify stc cts hflags val with ⟨f, hf⟩ | ⟨t, ht⟩
      · obtain ⟨t, ht⟩ := IH ⟨p, hp, hbad⟩
        exact ⟨t,
          by rw [generate_column_fields, hf, exceptBind_ok, ht, exceptBind_error]⟩
      · exact ⟨t, by rw [generate_column_fields, ht, exceptBind_error]⟩

/-- Claim C8: with a consistent casing policy, a class description
containing an attribute whose declared type — or array element type — is
not a key of `FIELD_TYPE_MAP` makes `GoldenSchema` construction fail with
the dict lookup `KeyError` (the concrete exception realizing the spec's
`UnsupportedTypeError`): construction returns the error and never a
schema, so the failure is synchronous, never deferred to encode/decode,
and there is no fallback codec. -/
theorem C8_unsupported_type (cls : SqlaCls) (nm : NestedMap)
    (no stc cts : Bool) (declared : List (String × Field))
    (hflags : (stc && cts) = false)
    (hbad : ∃ p ∈ cls.columns, FIELD_TYPE_MAP p.2.type = none ∨
      (∃ item, (p.2.type = .ARRAY item ∨ p.2.type = .pgARRAY item) ∧
        FIELD_TYPE_MAP item = none)) :
    ∃ t, GoldenSchema.init cls nm no stc cts declared = .error (.keyError t) := by
  obtain ⟨t, hgcf⟩ := generate_column_fields_bad stc cts hflags cls.columns hbad
  refine ⟨t, ?_⟩
  rw [GoldenSchema.init, CaseChangingSchema.init, if_neg (by rw [hflags]; simp),
    exceptBind_ok, generate_fields, hgcf, exceptBind_error, exceptBind_error]

/-- Concrete instance of claim C8: a column with an unmapped type class
fails construction with a `KeyError`. -/
theorem C8_unsupported_type_witness :
    (true && false) = false ∧
    ∃ t, GoldenSchema.init ⟨[("position", ⟨.other 0, true⟩)]⟩ .nil false true false [] =
      .error (.keyError t) :=
  ⟨rfl, C8_unsupported_type ⟨[("position", ⟨.other 0, true⟩)]⟩ .nil false true false []
    rfl ⟨("position", ⟨.other 0, true⟩), List.mem_cons_self _ _, Or.inl rfl⟩⟩

/-! ### Claim C4 -/

/-- Claim C4 (decode modelled from the spec — marshmallow, which
implements `load` under the `strict=True` set at schema.py line 91, is an
external dependency): for every constructed serializer and every input
mapping, (a) decoding ignores input keys that are no field's external
load name — appending such keys leaves the decode result unchanged — and
(b) a mapping missing the external name of a non-nullable field decodes
to a `ValidationError` naming that field, whose error list aggregates
every missing non-nullable field of the one pass rather than stopping at
the first. -/
theorem C4_load (cls : SqlaCls) (nm : NestedMap) (no stc cts : Bool)
    (declared : List (String × Field)) (sch : SchemaState)
    (hinit : GoldenSchema.init cls nm no stc cts declared = .ok sch)
    {V : Type} (input junk : List (String × V))
    (hjunk : ∀ q ∈ junk, ∀ p ∈ sch.fields, q.1 ≠ loadName p.1 p.2) :
    loadData sch (input ++ junk) = loadData sch input ∧
    (∀ p ∈ sch.fields, p.2.allow_none = false →
      input.lookup (loadName p.1 p.2) = none →
      ∃ es, loadData sch input = .error es ∧ p.1 ∈ es ∧
        ∀ q ∈ sch.fields, q.2.allow_none = false →
          input.lookup (loadName q.1 q.2) = none → q.1 ∈ es) := by
  have hlk : ∀ p ∈ sch.fields,
      (input ++ junk).lookup (loadName p.1 p.2) = input.lookup (loadName p.1 p.2) :=
    fun p hp => lookup_append_of_no_key _ _ _ (fun q hq => hjunk q hq p hp)
  constructor
  · simp only [loadData]
    rw [List.filterMap_congr (g := fun p =>
        if (input.lookup (loadName p.1 p.2)).isNone ∧ p.2.allow_none = false
        then some p.1 else none)
      (fun p hp => by rw [hlk p hp]),
      List.filterMap_congr (g := fun p =>
        (input.lookup (loadName p.1 p.2)).map (fun v => (attrName p.1 p.2, v)))
      (fun p hp => by rw [hlk p hp])]
  · intro p hp han hlkp
    have hpmem : p.1 ∈ sch.fields.filterMap (fun p =>
        if (input.lookup (loadName p.1 p.2)).isNone ∧ p.2.allow_none = false
        then some p.1 else none) :=
      List.mem_filterMap.mpr ⟨p, hp, by rw [if_pos ⟨by rw [hlkp]; rfl, han⟩]⟩
    refine ⟨_, ?_, hpmem, ?_⟩
    · simp only [loadData]
      rw [if_neg (List.ne_nil_of_mem hpmem)]
    · intro q hq hqan hqlk
      exact List.mem_filterMap.mpr ⟨q, hq, by rw [if_pos ⟨by rw [hqlk]; rfl, hqan⟩]⟩

theorem C4_load_witness :
    GoldenSchema.init ⟨[("name", ⟨.String, false⟩)]⟩ .nil false false false [] =
      .ok C4schema ∧
    loadData C4schema (([] : List (String × Nat)) ++ [("unknownKey", 7)]) =
      loadData C4schema ([] : List (String × Nat)) ∧
    (∃ es, loadData C4schema ([] : List (String × Nat)) = .error es ∧ "name" ∈ es) := by
  have h := C4_load ⟨[("name", ⟨.String, false⟩)]⟩ .nil false false false [] C4schema
    rfl ([] : List (String × Nat)) [("unknownKey", 7)] (by decide)
  refine ⟨rfl, h.1, ?_⟩
  obtain ⟨es, hes, hmem, _⟩ := h.2 ("name",
    Field.basic .String none false false false (some "name") none none)
    (List.mem_cons_self _ _) rfl rfl
  exact ⟨es, hes, hmem⟩

/-! ### Construction inversion and key tracking -/

/-- Inversion of a successful construction: the casing flags were
consistent, the columns and the nested map generated field dicts, and the
schema is `add_fields` of the altered declared fields with the generated
fields. -/
theorem GoldenSchema.init_ok {cls : SqlaCls} {nm : NestedMap} {no stc cts : Bool}
    {declared : List (String × Field)} {sch : SchemaState}
    (h : GoldenSchema.init cls nm no stc cts declared = .ok sch) :
    (stc && cts) = false ∧
    ∃ colFields nf,
      generate_column_fields stc cts cls.columns = .ok colFields ∧
      generate_nested_fields stc cts no nm colFields = .ok nf ∧
      sch = add_fields
        { snake_to_camel := stc, camel_to_snake := cts, new_obj := no,
          fields := declared.map (fun p => (p.1, alterField stc cts p.1 p.2)) } nf := by
  cases hflags : (stc && cts) with
  | true =>
    rw [GoldenSchema.init, CaseChangingSchema.init, if_pos (by rw [hflags]),
      exceptBind_error] at h
    exact absurd h (by simp)
  | false =>
    rw [GoldenSchema.init, CaseChangingSchema.init, if_neg (by rw [hflags]; simp),
      exceptBind_ok, generate_fields] at h
    cases hgcf : generate_column_fields stc cts cls.columns with
    | error e =>
      rw [hgcf, exceptBind_error, exceptBind_error] at h
      exact absurd h (by simp)
    | ok colFields =>
      rw [hgcf, exceptBind_ok] at h
      cases hgnf : generate_nested_fields stc cts no nm colFields with
      | error e =>
        rw [hgnf, exceptBind_error] at h
        exact absurd h (by simp)
      | ok nf =>
        rw [hgnf, exceptBind_ok] at h
        refine ⟨rfl, colFields, nf, rfl, hgnf, ?_⟩
        injection h with h
        rw [← h]
        rfl

theorem generate_column_fields_keys (stc cts : Bool) :
    ∀ {columns : List (String × Column)} {fs : List (String × Field)},
      generate_column_fields stc cts columns = .ok fs →
      ∀ p ∈ fs, p.1 ∈ columns.map Prod.fst := by
  intro columns
  induction columns with
  | nil =>
    intro fs h p hp
    rw [generate_column_fields] at h
    injection h with h
    rw [← h] at hp
    cases hp
  | cons q rest IH =>
    intro fs h p hp
    obtain ⟨key, val⟩ := q
    cases hcf : columnField stc cts val with
    | error e =>
      rw [generate_column_fields, hcf, exceptBind_error] at h
      exact absurd h (by simp)
    | ok f =>
      cases hrest : generate_column_fields stc cts rest with
      | error e =>
        rw [generate_column_fields, hcf, exceptBind_ok, hrest, exceptBind_error] at h
        exact absurd h (by simp)
      | ok fs' =>
        rw [generate_column_fields, hcf, exceptBind_ok, hrest, exceptBind_ok] at h
        injection h with h
        rw [← h] at hp
        rcases List.mem_cons.mp hp with rfl | hp
        · exact List.mem_cons_self _ _
        · exact List.mem_cons_of_mem _ (IH hrest p hp)

theorem nestedFieldsGo_keys (stc cts no : Bool) :
    ∀ (nm : NestedMap) {acc fs : List (String × Field)},
      nestedFieldsGo stc cts no nm acc = .ok fs →
      ∀ p ∈ fs, p.1 ∈ nestedKeys nm ∨ p ∈ acc := by
  intro nm
  induction nm with
  | nil =>
    intro acc fs h p hp
    rw [nestedFieldsGo] at h
    injection h with h
    rw [← h] at hp
    exact Or.inr hp
  | cons k c m sub rest IHsub IHrest =>
    intro acc fs h p hp
    rw [nestedFieldsGo] at h
    cases hccs : CaseChangingSchema.init stc cts [] with
    | error e =>
      rw [hccs, exceptBind_error] at h
      exact absurd h (by simp)
    | ok st =>
      rw [hccs, exceptBind_ok] at h
      cases hgcf : generate_column_fields stc cts c.columns with
      | error e =>
        rw [hgcf, exceptBind_error] at h
        exact absurd h (by simp)
      | ok colFields =>
        rw [hgcf, exceptBind_ok] at h
        cases hsub : nestedFieldsGo stc cts no sub colFields with
        | error e =>
          rw [hsub, exceptBind_error] at h
          exact absurd h (by simp)
        | ok subFields =>
          rw [hsub, exceptBind_ok] at h
          rcases IHrest h p hp with hk | hacc
          · exact Or.inl (List.mem_cons_of_mem _ hk)
          · rcases mem_dictSet hacc with rfl | hacc'
            · exact Or.inl (List.mem_cons_self _ _)
            · exact Or.inr hacc'

/-- During `add_fields`, a name present in the field dict stays bound to
the same field as long as no later entry's case-converted name collides
with it: an entry with that original name is skipped by the
`name not in self.declared_fields` guard, and every other entry writes a
different key. -/
theorem add_fields_lookup : ∀ (nf : List (String × Field)) (st : SchemaState)
    (n : String), (st.fields.lookup n).isSome = true →
    (∀ p ∈ nf, p.1 = n ∨ convertPolicy st.snake_to_camel st.camel_to_snake p.1 ≠ n) →
    (add_fields st nf).fields.lookup n = st.fields.lookup n := by
  intro nf
  induction nf with
  | nil => intro st n _ _; rfl
  | cons q rest IH =>
    intro st n hsome hq
    have hstep : (addOneField st q).fields.lookup n = st.fields.lookup n ∧
        (addOneField st q).snake_to_camel = st.snake_to_camel ∧
        (addOneField st q).camel_to_snake = st.camel_to_snake := by
      rw [addOneField]
      by_cases h1 : (st.fields.lookup q.1).isSome = true
      · rw [if_pos h1]
        exact ⟨rfl, rfl, rfl⟩
      · rw [if_neg h1]
        by_cases h2 : st.new_obj = true ∧ q.1 = "id"
        · rw [if_pos h2]
          exact ⟨rfl, rfl, rfl⟩
        · rw [if_neg h2]
          refine ⟨?_, rfl, rfl⟩
          have hne : q.1 ≠ n := fun hh => h1 (hh ▸ hsome)
          rcases hq q (List.mem_cons_self _ _) with h | h
          · exact absurd h hne
          · exact lookup_dictSet_ne (fun hh => h hh.symm)
    rw [add_fields, List.foldl_cons]
    have hrest := IH (addOneField st q) n (by rw [hstep.1]; exact hsome)
      (fun p hp => by
        rw [hstep.2.1, hstep.2.2]
        exact hq p (List.mem_cons_of_mem _ hp))
    rw [add_fields] at hrest
    rw [hrest, hstep.1]

/-- Core of manual-declaration survival: whenever no generated name
case-converts onto a declared name `n`, the field stored under `n` after
`GoldenSchema` construction is exactly the manual declaration (with
`alter_case` applied). -/
theorem init_manual_lookup (cls : SqlaCls) (nm : NestedMap) (no stc cts : Bool)
    (declared : List (String × Field)) (sch : SchemaState) (n : String)
    (hinit : GoldenSchema.init cls nm no stc cts declared = .ok sch)
    (hdecl : (declared.lookup n).isSome = true)
    (hcols : ∀ k ∈ cls.columns.map Prod.fst, k = n ∨ convertPolicy stc cts k ≠ n)
    (hnm : ∀ k ∈ nestedKeys nm, k = n ∨ convertPolicy stc cts k ≠ n) :
    sch.fields.lookup n = (declared.lookup n).map (alterField stc cts n) := by
  obtain ⟨hflags, colFields, nf, hgcf, hgnf, hsch⟩ := GoldenSchema.init_ok hinit
  subst hsch
  have hbase : (declared.map (fun p => (p.1, alterField stc cts p.1 p.2))).lookup n =
      (declared.lookup n).map (alterField stc cts n) := lookup_map_alterField stc cts
  rw [add_fields_lookup nf _ n (by rw [hbase]; simpa using hdecl) ?_]
  · exact hbase
  · intro p hp
    rcases nestedFieldsGo_keys stc cts no nm hgnf p hp with hk | hcol
    · exact hnm p.1 hk
    · exact hcols p.1 (generate_column_fields_keys stc cts hgcf p hcol)

/-! ### Claim C5 -/

/-- Claim C5 as stated is false.  `add_fields` checks the ORIGINAL
(pre-conversion) name against the declared fields but writes the field
under its case-converted name, so an auto-generated field can land on —
and overwrite — a manually declared field of that converted name.
Concretely: a serializer over a class with column `school_id`, with
`snake_to_camel` and a manually declared field `schoolId`, ends up with
the auto-generated field (whose `attribute` is `school_id`) stored under
`schoolId`, not the manual field (whose `attribute` slot is `none`, both
before and after `alter_case`) — the manual declaration does not appear
in the output. -/
theorem C5_counterexample :
    (match GoldenSchema.init ⟨[("school_id", ⟨.Integer, true⟩)]⟩ .nil false true false
        [("schoolId", Field.basic .Function none false false false none none none)] with
      | .ok st => (st.fields.lookup "schoolId").map Field.attr
      | .error _ => none) = some (some "school_id") ∧
    (Field.basic .Function none false false false none none none).attr = none ∧
    (alterField true false "schoolId"
      (Field.basic .Function none false false false none none none)).attr = none :=
  ⟨by decide, rfl, rfl⟩

/-- Claim C5, amended: auto-generation only adds a field when no field of
the auto field's ORIGINAL name is already declared, so a manually
declared field is never overwritten by an auto-generated field of the
same original name; under an active casing policy, however, an
auto-generated field whose case-converted name equals the declared name
does overwrite it (`C5_counterexample`).  Whenever no generated name
case-converts onto the declared name `n`, the field stored under `n`
after construction is exactly the manual declaration (with `alter_case`
applied), so it appears in encode output. -/
theorem C5_manual_precedence (cls : SqlaCls) (nm : NestedMap) (no stc cts : Bool)
    (declared : List (String × Field)) (sch : SchemaState) (n : String)
    (hinit : GoldenSchema.init cls nm no stc cts declared = .ok sch)
    (hdecl : (declared.lookup n).isSome = true)
    (hcols : ∀ k ∈ cls.columns.map Prod.fst, k = n ∨ convertPolicy stc cts k ≠ n)
    (hnm : ∀ k ∈ nestedKeys nm, k = n ∨ convertPolicy stc cts k ≠ n) :
    sch.fields.lookup n = (declared.lookup n).map (alterField stc cts n) :=
  init_manual_lookup cls nm no stc cts declared sch n hinit hdecl hcols hnm

theorem C5_manual_precedence_witness :
    GoldenSchema.init
      ⟨[("id", ⟨.Integer, true⟩), ("name", ⟨.String, true⟩),
        ("school_id", ⟨.Integer, true⟩)]⟩ .nil false true false
      [("extra_field", Field.basic .Function none false false false none none none)] =
      .ok alchemistExtraSchema ∧
    alchemistExtraSchema.fields.lookup "extra_field" =
      ([("extra_field", Field.basic .Function none false false false none none none)].lookup
        "extra_field").map (alterField true false "extra_field") := by
  refine ⟨rfl, ?_⟩
  exact C5_manual_precedence
    ⟨[("id", ⟨.Integer, true⟩), ("name", ⟨.String, true⟩),
      ("school_id", ⟨.Integer, true⟩)]⟩ .nil false true false
    [("extra_field", Field.basic .Function none false false false none none none)]
    alchemistExtraSchema "extra_field" rfl (by decide) (by decide) (by decide)

/-! ### Claim C6 -/

@[simp] theorem Field.attr_set_load_from (f : Field) (x : Option String) :
    (f.set_load_from x).attr = f.attr := by cases f <;> rfl

@[simp] theorem Field.attr_set_dump_to (f : Field) (x : Option String) :
    (f.set_dump_to x).attr = f.attr := by cases f <;> rfl

@[simp] theorem Field.attr_set_attr (f : Field) (x : Option String) :
    (f.set_attr x).attr = x := by cases f <;> rfl

@[simp] theorem Field.load_from_set_load_from (f : Field) (x : Option String) :
    (f.set_load_from x).load_from = x := by cases f <;> rfl

@[simp] theorem Field.load_from_set_dump_to (f : Field) (x : Option String) :
    (f.set_dump_to x).load_from = f.load_from := by cases f <;> rfl

@[simp] theorem Field.load_from_set_attr (f : Field) (x : Option String) :
    (f.set_attr x).load_from = f.load_from := by cases f <;> rfl

@[simp] theorem Field.dump_to_set_dump_to (f : Field) (x : Option String) :
    (f.set_dump_to x).dump_to = x := by cases f <;> rfl

@[simp] theorem Field.dump_to_set_load_from (f : Field) (x : Option String) :
    (f.set_load_from x).dump_to = f.dump_to := by cases f <;> rfl

@[simp] theorem Field.dump_to_set_attr (f : Field) (x : Option String) :
    (f.set_attr x).dump_to = f.dump_to := by cases f <;> rfl

/-- Fields built by `columnField` have empty `attribute`, `load_from` and
`dump_to` slots (marshmallow fields are created without them there). -/
theorem columnField_slots (stc cts : Bool) (val : Column) {f : Field}
    (h : columnField stc cts val = .ok f) :
    f.attr = none ∧ f.load_from = none ∧ f.dump_to = none := by
  obtain ⟨ty, nl⟩ := val
  cases ty with
  | ARRAY item =>
    rw [columnField_ARRAY] at h
    cases hit : FIELD_TYPE_MAP item with
    | none =>
      rw [hit] at h
      exact absurd h (by simp)
    | some ic =>
      rw [hit] at h
      injection h with h
      rw [← h]
      exact ⟨rfl, rfl, rfl⟩
  | pgARRAY item =>
    rw [columnField_pgARRAY] at h
    cases hit : FIELD_TYPE_MAP item with
    | none =>
      rw [hit] at h
      exact absurd h (by simp)
    | some ic =>
      rw [hit] at h
      injection h with h
      rw [← h]
      exact ⟨rfl, rfl, rfl⟩
  | ENUM =>
    rw [columnField_ENUM, EnumField.init] at h
    by_cases hb : (stc && cts) = true
    · rw [if_pos hb] at h
      exact absurd h (by simp)
    · rw [if_neg hb] at h
      injection h with h
      rw [← h]
      exact ⟨rfl, rfl, rfl⟩
  | other n =>
    rw [columnField_other] at h
    exact absurd h (by simp)
  | TEXT => injection h with h; rw [← h]; exact ⟨rfl, rfl, rfl⟩
  | String => injection h with h; rw [← h]; exact ⟨rfl, rfl, rfl⟩
  | JSON => injection h with h; rw [← h]; exact ⟨rfl, rfl, rfl⟩
  | INTEGER => injection h with h; rw [← h]; exact ⟨rfl, rfl, rfl⟩
  | Integer => injection h with h; rw [← h]; exact ⟨rfl, rfl, rfl⟩
  | BIGINT => injection h with h; rw [← h]; exact ⟨rfl, rfl, rfl⟩
  | TIMESTAMP => injection h with h; rw [← h]; exact ⟨rfl, rfl, rfl⟩
  | DATE => injection h with h; rw [← h]; exact ⟨rfl, rfl, rfl⟩
  | BOOLEAN => injection h with h; rw [← h]; exact ⟨rfl, rfl, rfl⟩
  | Boolean => injection h with h; rw [← h]; exact ⟨rfl, rfl, rfl⟩
  | UUID => injection h with h; rw [← h]; exact ⟨rfl, rfl, rfl⟩

theorem generate_column_fields_slots (stc cts : Bool) :
    ∀ {columns : List (String × Column)} {fs : List (String × Field)},
      generate_column_fields stc cts columns = .ok fs →
      ∀ p ∈ fs, p.2.attr = none ∧ p.2.load_from = none ∧ p.2.dump_to = none := by
  intro columns
  induction columns with
  | nil =>
    intro fs h p hp
    rw [generate_column_fields] at h
    injection h with h
    rw [← h] at hp
    cases hp
  | cons q rest IH =>
    intro fs h p hp
    obtain ⟨key, val⟩ := q
    cases hcf : columnField stc cts val with
    | error e =>
      rw [generate_column_fields, hcf, exceptBind_error] at h
      exact absurd h (by simp)
    | ok f =>
      cases hrest : generate_column_fields stc cts rest with
      | error e =>
        rw [generate_column_fields, hcf, exceptBind_ok, hrest, exceptBind_error] at h
        exact absurd h (by simp)
      | ok fs' =>
        rw [generate_column_fields, hcf, exceptBind_ok, hrest, exceptBind_ok] at h
        injection h with h
        rw [← h] at hp
        rcases List.mem_cons.mp hp with rfl | hp
        · exact columnField_slots stc cts val hcf
        · exact IH hrest p hp

theorem nestedFieldsGo_slots (stc cts no : Bool) :
    ∀ (nm : NestedMap) {acc fs : List (String × Field)},
      nestedFieldsGo stc cts no nm acc = .ok fs →
      (∀ p ∈ acc, p.2.attr = none ∧ p.2.load_from = none ∧ p.2.dump_to = none) →
      ∀ p ∈ fs, p.2.attr = none ∧ p.2.load_from = none ∧ p.2.dump_to = none := by
  intro nm
  induction nm with
  | nil =>
    intro acc fs h hacc p hp
    rw [nestedFieldsGo] at h
    injection h with h
    rw [← h] at hp
    exact hacc p hp
  | cons k c m sub rest IHsub IHrest =>
    intro acc fs h hacc p hp
    rw [nestedFieldsGo] at h
    cases hccs : CaseChangingSchema.init stc cts [] with
    | error e =>
      rw [hccs, exceptBind_error] at h
      exact absurd h (by simp)
    | ok st =>
      rw [hccs, exceptBind_ok] at h
      cases hgcf : generate_column_fields stc cts c.columns with
      | error e =>
        rw [hgcf, exceptBind_error] at h
        exact absurd h (by simp)
      | ok colFields =>
        rw [hgcf, exceptBind_ok] at h
        cases hsub : nestedFieldsGo stc cts no sub colFields with
        | error e =>
          rw [hsub, exceptBind_error] at h
          exact absurd h (by simp)
        | ok subFields =>
          rw [hsub, exceptBind_ok] at h
          refine IHrest h ?_ p hp
          intro r hr
          rcases mem_dictSet hr with rfl | hr'
          · exact ⟨rfl, rfl, rfl⟩
          · exact hacc r hr'

theorem addOneField_flags (st : SchemaState) (q : String × Field) :
    (addOneField st q).snake_to_camel = st.snake_to_camel ∧
    (addOneField st q).camel_to_snake = st.camel_to_snake ∧
    (addOneField st q).new_obj = st.new_obj := by
  rw [addOneField]
  split
  · exact ⟨rfl, rfl, rfl⟩
  · split
    · exact ⟨rfl, rfl, rfl⟩
    · exact ⟨rfl, rfl, rfl⟩

theorem mem_addOneField {st : SchemaState} {q p : String × Field}
    (h : p ∈ (addOneField st q).fields) :
    p ∈ st.fields ∨
      (¬(st.new_obj = true ∧ q.1 = "id") ∧
        p = (convertPolicy st.snake_to_camel st.camel_to_snake q.1,
          q.2.set_attr (some q.1))) := by
  rw [addOneField] at h
  split at h
  · exact Or.inl h
  · rename_i h1
    split at h
    · exact Or.inl h
    · rename_i h2
      rcases mem_dictSet h with h' | h'
      · exact Or.inr ⟨h2, h'⟩
      · exact Or.inl h'

theorem add_fields_flags : ∀ (nf : List (String × Field)) (st : SchemaState),
    (add_fields st nf).snake_to_camel = st.snake_to_camel ∧
    (add_fields st nf).camel_to_snake = st.camel_to_snake ∧
    (add_fields st nf).new_obj = st.new_obj := by
  intro nf
  induction nf with
  | nil => exact fun st => ⟨rfl, rfl, rfl⟩
  | cons q rest IH =>
    intro st
    rw [add_fields, List.foldl_cons]
    have h1 := addOneField_flags st q
    have h2 := IH (addOneField st q)
    rw [add_fields] at h2
    exact ⟨h2.1.trans h1.1, h2.2.1.trans h1.2.1, h2.2.2.trans h1.2.2⟩

/-- Every entry of the field dict after `add_fields` is either an entry
of the starting dict or a generated field stored under its converted name
with `attribute` set to its original name. -/
theorem add_fields_mem : ∀ (nf : List (String × Field)) (st : SchemaState)
    {p : String × Field}, p ∈ (add_fields st nf).fields →
    p ∈ st.fields ∨ ∃ q ∈ nf,
      ¬(st.new_obj = true ∧ q.1 = "id") ∧
      p = (convertPolicy st.snake_to_camel st.camel_to_snake q.1,
        q.2.set_attr (some q.1)) := by
  intro nf
  induction nf with
  | nil => intro st p h; exact Or.inl h
  | cons q rest IH =>
    intro st p h
    rw [add_fields, List.foldl_cons] at h
    rcases IH (addOneField st q) (show p ∈ (add_fields (addOneField st q) rest).fields
        from h) with h' | ⟨r, hr, hskip, hp⟩
    · rcases mem_addOneField h' with h'' | ⟨hsk, h''⟩
      · exact Or.inl h''
      · exact Or.inr ⟨q, List.mem_cons_self _ _, hsk, h''⟩
    · refine Or.inr ⟨r, List.mem_cons_of_mem _ hr, ?_, ?_⟩
      · rw [← (addOneField_flags st q).2.2]
        exact hskip
      · rw [hp, (addOneField_flags st q).1, (addOneField_flags st q).2.1]

/-- Claim C6: after construction every field's external wire name —
`dump_to`/`load_from` when set, else its key in the field dict — is the
case-converted version of its internal name (`attribute` when set, else
the key) under the active policy: `camelcase` of it under snake-to-camel,
`snakecase` under camel-to-snake, and the internal name unchanged when no
policy is set; internal binding always uses the original attribute name.
`declared` are class-level manual declarations, which carry no pre-set
`attribute`/`load_from`/`dump_to` slots. -/
theorem C6_names (cls : SqlaCls) (nm : NestedMap) (no stc cts : Bool)
    (declared : List (String × Field)) (sch : SchemaState)
    (hdecl : ∀ p ∈ declared,
      p.2.attr = none ∧ p.2.load_from = none ∧ p.2.dump_to = none)
    (hinit : GoldenSchema.init cls nm no stc cts declared = .ok sch) :
    sch.snake_to_camel = stc ∧ sch.camel_to_snake = cts ∧
    ∀ p ∈ sch.fields,
      dumpName p.1 p.2 = convertPolicy stc cts (attrName p.1 p.2) ∧
      loadName p.1 p.2 = convertPolicy stc cts (attrName p.1 p.2) := by
  obtain ⟨hflags, colFields, nf, hgcf, hgnf, hsch⟩ := GoldenSchema.init_ok hinit
  subst hsch
  refine ⟨(add_fields_flags nf _).1, (add_fields_flags nf _).2.1, ?_⟩
  intro p hp
  rcases add_fields_mem nf _ hp with hbase | ⟨q, hq, _, hpq⟩
  · rcases List.mem_map.mp hbase with ⟨r, hr, hpr⟩
    obtain ⟨ha, hlf, hdt⟩ := hdecl r hr
    rw [← hpr]
    by_cases hstc : stc = true
    · simp [dumpName, loadName, attrName, alterField, convertPolicy, hstc, ha, hlf, hdt]
    · by_cases hcts : cts = true
      · simp [dumpName, loadName, attrName, alterField, convertPolicy,
          hstc, hcts, ha, hlf, hdt]
      · simp [dumpName, loadName, attrName, alterField, convertPolicy,
          hstc, hcts, ha, hlf, hdt]
  · have hslots := nestedFieldsGo_slots stc cts no nm hgnf
      (generate_column_fields_slots stc cts hgcf) q hq
    rw [hpq]
    simp [dumpName, loadName, attrName, hslots.1, hslots.2.1, hslots.2.2]

/-- Concrete instance of claim C6 over the `Alchemist`-like class with a
manual `extra_field` under snake-to-camel. -/
theorem C6_names_witness :
    (∀ p ∈ [("extra_field",
        Field.basic FieldCls.Function none false false false none none none)],
      p.2.attr = none ∧ p.2.load_from = none ∧ p.2.dump_to = none) ∧
    (alchemistExtraSchema.snake_to_camel = true ∧
      alchemistExtraSchema.camel_to_snake = false ∧
      ∀ p ∈ alchemistExtraSchema.fields,
        dumpName p.1 p.2 = convertPolicy true false (attrName p.1 p.2) ∧
        loadName p.1 p.2 = convertPolicy true false (attrName p.1 p.2)) := by
  refine ⟨by decide, ?_⟩
  exact C6_names
    ⟨[("id", ⟨.Integer, true⟩), ("name", ⟨.String, true⟩),
      ("school_id", ⟨.Integer, true⟩)]⟩ .nil false true false
    [("extra_field", Field.basic .Function none false false false none none none)]
    alchemistExtraSchema (by decide) rfl

/-! ### Claim C7 -/

theorem filter_dictSet_id (l : List (String × Field)) (v : Field) :
    (dictSet l "id" v).filter (fun p => p.1 ≠ "id") =
      l.filter (fun p => p.1 ≠ "id") := by
  induction l with
  | nil => simp [dictSet]
  | cons p rest IH =>
    obtain ⟨a, b⟩ := p
    simp only [decide_not] at IH
    rw [dictSet]
    by_cases ha : a = "id"
    · rw [if_pos ha]
      subst ha
      simp [List.filter_cons]
    · rw [if_neg ha]
      simp [List.filter_cons, ha, IH]

theorem filter_dictSet_ne (l : List (String × Field)) (k : String) (v : Field)
    (hk : k ≠ "id") :
    (dictSet l k v).filter (fun p => p.1 ≠ "id") =
      dictSet (l.filter (fun p => p.1 ≠ "id")) k v := by
  induction l with
  | nil => simp [dictSet, hk]
  | cons p rest IH =>
    obtain ⟨a, b⟩ := p
    simp only [decide_not] at IH
    rw [dictSet]
    by_cases ha : a = k
    · rw [if_pos ha]
      subst ha
      simp [List.filter_cons, hk, dictSet]
    · rw [if_neg ha]
      by_cases hai : a = "id"
      · subst hai
        simp [List.filter_cons, IH]
      · simp [List.filter_cons, hai, dictSet, ha, IH]

/-- With `new_obj` set, `add_fields` treats the generated fields exactly
as if every entry named `id` were absent: the `name == 'id'` guard skips
them. -/
theorem add_fields_new_obj_filter : ∀ (nf : List (String × Field)) (st : SchemaState),
    st.new_obj = true →
    add_fields st nf = add_fields st (nf.filter (fun p => p.1 ≠ "id")) := by
  intro nf
  induction nf with
  | nil => intro st _; rfl
  | cons q rest IH =>
    intro st hno
    by_cases hq : q.1 = "id"
    · have hskip : addOneField st q = st := by
        rw [addOneField]
        split
        · rfl
        · rw [if_pos ⟨hno, hq⟩]
      rw [add_fields, List.foldl_cons, hskip, List.filter_cons, if_neg (by simp [hq])]
      rw [← add_fields]
      exact IH st hno
    · rw [add_fields, List.foldl_cons, List.filter_cons, if_pos (by simp [hq])]
      rw [add_fields, List.foldl_cons, ← add_fields, ← add_fields]
      exact IH (addOneField st q) (((addOneField_flags st q).2.2).trans hno)

theorem generate_column_fields_filter (stc cts : Bool) :
    ∀ {columns : List (String × Column)} {fs : List (String × Field)},
      generate_column_fields stc cts columns = .ok fs →
      generate_column_fields stc cts (columns.filter (fun p => p.1 ≠ "id")) =
        .ok (fs.filter (fun p => p.1 ≠ "id")) := by
  intro columns
  induction columns with
  | nil =>
    intro fs h
    rw [generate_column_fields] at h
    injection h with h
    rw [← h]
    rfl
  | cons q rest IH =>
    intro fs h
    obtain ⟨key, val⟩ := q
    cases hcf : columnField stc cts val with
    | error e =>
      rw [generate_column_fields, hcf, exceptBind_error] at h
      exact absurd h (by simp)
    | ok f =>
      cases hrest : generate_column_fields stc cts rest with
      | error e =>
        rw [generate_column_fields, hcf, exceptBind_ok, hrest, exceptBind_error] at h
        exact absurd h (by simp)
      | ok fs' =>
        rw [generate_column_fields, hcf, exceptBind_ok, hrest, exceptBind_ok] at h
        injection h with h
        rw [← h]
        by_cases hk : key = "id"
        · rw [List.filter_cons, List.filter_cons, if_neg (by simp [hk]),
            if_neg (by simp [hk])]
          exact IH hrest
        · rw [List.filter_cons, List.filter_cons, if_pos (by simp [hk]),
            if_pos (by simp [hk])]
          rw [generate_column_fields, hcf, exceptBind_ok, IH hrest, exceptBind_ok]

/-- Forward construction: consistent flags and successful generation
determine the result of `GoldenSchema.__init__`. -/
theorem GoldenSchema.init_build {cls : SqlaCls} {nm : NestedMap}
    {no stc cts : Bool} {declared : List (String × Field)}
    {colFields nf : List (String × Field)}
    (hflags : (stc && cts) = false)
    (hgcf : generate_column_fields stc cts cls.columns = .ok colFields)
    (hgnf : generate_nested_fields stc cts no nm colFields = .ok nf) :
    GoldenSchema.init cls nm no stc cts declared = .ok (add_fields
      { snake_to_camel := stc, camel_to_snake := cts, new_obj := no,
        fields := declared.map (fun p => (p.1, alterField stc cts p.1 p.2)) } nf) := by
  rw [GoldenSchema.init, CaseChangingSchema.init, if_neg (by rw [hflags]; simp),
    exceptBind_ok, generate_fields, hgcf, exceptBind_ok, hgnf, exceptBind_ok]
  rfl

/-- The core of claim C7: with the `new_obj` flag set, construction over
a class description and nested map equals construction over the same
inputs with every column or nested entry named `id` removed at every
level — the generated field set omits `id` everywhere, the flag
propagating through the recursion. -/
theorem dropId_equiv (stc cts : Bool) : ∀ nm : NestedMap,
    (∀ (acc fs : List (String × Field)),
      nestedFieldsGo stc cts true nm acc = .ok fs →
      nestedFieldsGo stc cts true nm.dropId (acc.filter (fun p => p.1 ≠ "id")) =
        .ok (fs.filter (fun p => p.1 ≠ "id"))) ∧
    (∀ (cls : SqlaCls) (declared : List (String × Field)) (sch : SchemaState),
      GoldenSchema.init cls nm true stc cts declared = .ok sch →
      GoldenSchema.init cls.dropId nm.dropId true stc cts declared = .ok sch) := by
  intro nm
  induction nm with
  | nil =>
    have hgo : ∀ (acc fs : List (String × Field)),
        nestedFieldsGo stc cts true NestedMap.nil acc = .ok fs →
        nestedFieldsGo stc cts true NestedMap.nil.dropId
          (acc.filter (fun p => p.1 ≠ "id")) = .ok (fs.filter (fun p => p.1 ≠ "id")) := by
      intro acc fs h
      rw [nestedFieldsGo] at h
      injection h with h
      rw [← h]
      rfl
    refine ⟨hgo, ?_⟩
    intro cls declared sch h
    obtain ⟨hflags, colFields, nf, hgcf, hgnf, hsch⟩ := GoldenSchema.init_ok h
    have hgcf' := generate_column_fields_filter stc cts hgcf
    have hgnf' := hgo colFields nf hgnf
    have hbuild := @GoldenSchema.init_build cls.dropId _ true stc cts
      declared _ _ hflags hgcf' hgnf'
    rw [hbuild, hsch, add_fields_new_obj_filter nf _ rfl]
  | cons k c m sub rest IHsub IHrest =>
    have hgo : ∀ (acc fs : List (String × Field)),
        nestedFieldsGo stc cts true (NestedMap.cons k c m sub rest) acc = .ok fs →
        nestedFieldsGo stc cts true (NestedMap.cons k c m sub rest).dropId
          (acc.filter (fun p => p.1 ≠ "id")) = .ok (fs.filter (fun p => p.1 ≠ "id")) := by
      intro acc fs h
      rw [nestedFieldsGo] at h
      cases hccs : CaseChangingSchema.init stc cts [] with
      | error e =>
        rw [hccs, exceptBind_error] at h
        exact absurd h (by simp)
      | ok st =>
        rw [hccs, exceptBind_ok] at h
        cases hgcf : generate_column_fields stc cts c.columns with
        | error e =>
          rw [hgcf, exceptBind_error] at h
          exact absurd h (by simp)
        | ok colFields =>
          rw [hgcf, exceptBind_ok] at h
          cases hsub : nestedFieldsGo stc cts true sub colFields with
          | error e =>
            rw [hsub, exceptBind_error] at h
            exact absurd h (by simp)
          | ok subFields =>
            rw [hsub, exceptBind_ok] at h
            by_cases hk : k = "id"
            · subst hk
              rw [NestedMap.dropId, if_pos rfl]
              have := IHrest.1 _ fs h
              rw [filter_dictSet_id] at this
              exact this
            · rw [NestedMap.dropId, if_neg hk, nestedFieldsGo, hccs, exceptBind_ok,
                show (SqlaCls.dropId c).columns =
                  c.columns.filter (fun p => p.1 ≠ "id") from rfl,
                generate_column_fields_filter stc cts hgcf, exceptBind_ok,
                IHsub.1 colFields subFields hsub, exceptBind_ok]
              have hsubSchema :
                  add_fields { st with new_obj := true }
                    (subFields.filter (fun p => p.1 ≠ "id")) =
                  add_fields { st with new_obj := true } subFields :=
                (add_fields_new_obj_filter subFields _ rfl).symm
              rw [hsubSchema]
              have := IHrest.1 _ fs h
              rw [filter_dictSet_ne _ _ _ hk] at this
              exact this
    refine ⟨hgo, ?_⟩
    intro cls declared sch h
    obtain ⟨hflags, colFields, nf, hgcf, hgnf, hsch⟩ := GoldenSchema.init_ok h
    have hgcf' := generate_column_fields_filter stc cts hgcf
    have hgnf' := hgo colFields nf hgnf
    have hbuild := @GoldenSchema.init_build cls.dropId _ true stc cts
      declared _ _ hflags hgcf' hgnf'
    rw [hbuild, hsch, add_fields_new_obj_filter nf _ rfl]

/-- Claim C7: with the `new_obj` flag set, auto-generation skips the
field named `id` at the top level and inside every recursively generated
nested serializer (the flag propagates through
`generate_nested_fields`).  Stated as three parts.  (1) Construction over
the class description and nested map with every `id` column/entry removed
at every level yields the very same schema — the `id` entries never
contribute a field.  (2) A manually declared `id` field is still
included: it survives construction (with `alter_case` applied), provided
no generated name case-converts onto `id` (without that proviso even
manual fields can be overwritten, see `C5_counterexample`).  (3) When no
manual field is named `id` or bound to attribute `id`, any successfully
decoded data carries no `id` key, so the constructed instance's `id`
attribute is unset (the SQLAlchemy column default, `None`). -/
theorem C7_new_obj (cls : SqlaCls) (nm : NestedMap) (stc cts : Bool)
    (declared : List (String × Field)) (sch : SchemaState)
    (hinit : GoldenSchema.init cls nm true stc cts declared = .ok sch) :
    GoldenSchema.init cls.dropId nm.dropId true stc cts declared = .ok sch ∧
    ((declared.lookup "id").isSome = true →
      (∀ k ∈ cls.columns.map Prod.fst, k = "id" ∨ convertPolicy stc cts k ≠ "id") →
      (∀ k ∈ nestedKeys nm, k = "id" ∨ convertPolicy stc cts k ≠ "id") →
      sch.fields.lookup "id" = (declared.lookup "id").map (alterField stc cts "id")) ∧
    ((∀ p ∈ declared, p.1 ≠ "id" ∧ p.2.attr = none) →
      ∀ {V : Type} (input data : List (String × V)),
        loadData sch input = .ok data → make_sqlalchemy_object data "id" = none) := by
  obtain ⟨hflags, colFields, nf, hgcf, hgnf, hsch⟩ := GoldenSchema.init_ok hinit
  refine ⟨(dropId_equiv stc cts nm).2 cls declared sch hinit,
    fun hdecl hcols hnm => init_manual_lookup cls nm true stc cts declared sch "id"
      hinit hdecl hcols hnm, ?_⟩
  intro hdecl3 V input data hload
  have hattr : ∀ p ∈ sch.fields, attrName p.1 p.2 ≠ "id" := by
    intro p hp
    rw [hsch] at hp
    rcases add_fields_mem nf _ hp with hbase | ⟨q, hq, hskip, hpq⟩
    · obtain ⟨r, hr, rfl⟩ := List.mem_map.mp hbase
      obtain ⟨hrne, hrattr⟩ := hdecl3 r hr
      show attrName r.1 (alterField stc cts r.1 r.2) ≠ "id"
      have halt : (alterField stc cts r.1 r.2).attr = r.2.attr := by
        rw [alterField]
        split
        · rw [Field.attr_set_dump_to, Field.attr_set_load_from]
        · split
          · rw [Field.attr_set_dump_to, Field.attr_set_load_from]
          · rfl
      rw [attrName, halt, hrattr]
      exact hrne
    · have hqne : q.1 ≠ "id" := fun hh => hskip ⟨rfl, hh⟩
      rw [hpq]
      show attrName (convertPolicy stc cts q.1) (q.2.set_attr (some q.1)) ≠ "id"
      rw [attrName, Field.attr_set_attr]
      exact hqne
  rw [make_sqlalchemy_object]
  simp only [loadData] at hload
  split at hload
  · injection hload with hload
    rw [← hload]
    apply lookup_eq_none_of_keys
    intro q hq
    rcases List.mem_filterMap.mp hq with ⟨p, hp, hfp⟩
    rcases Option.map_eq_some'.mp hfp with ⟨v, hv, rfl⟩
    exact hattr p hp
  · exact absurd hload (by simp)

theorem C7_new_obj_witness :
    GoldenSchema.init
      (SqlaCls.dropId
        ⟨[("id", ⟨.Integer, true⟩), ("name", ⟨.String, true⟩),
          ("school_id", ⟨.Integer, true⟩)]⟩)
      (NestedMap.dropId (.cons "formulae"
        ⟨[("id", ⟨.Integer, true⟩), ("title", ⟨.String, true⟩),
          ("author_id", ⟨.Integer, true⟩)]⟩ true .nil .nil))
      true false false [] = .ok alchemistNewObjSchema ∧
    make_sqlalchemy_object alchemistNewObjData "id" = none := by
  have h := C7_new_obj
    ⟨[("id", ⟨.Integer, true⟩), ("name", ⟨.String, true⟩),
      ("school_id", ⟨.Integer, true⟩)]⟩
    (.cons "formulae"
      ⟨[("id", ⟨.Integer, true⟩), ("title", ⟨.String, true⟩),
        ("author_id", ⟨.Integer, true⟩)]⟩ true .nil .nil)
    false false [] alchemistNewObjSchema rfl
  exact ⟨h.1, h.2.2 (fun p hp => absurd hp (List.not_mem_nil p))
    [("name", 0), ("school_id", 1), ("formulae", 2)] alchemistNewObjData rfl⟩

/-! ### Claim C10 -/

theorem storeGet_append_left (store ext : List HMap) (a : Nat)
    (h : a < store.length) : storeGet (store ++ ext) a = storeGet store a := by
  rw [storeGet, storeGet]
  exact List.getD_append store ext [] a h

theorem nmAlloc_frame (store : List HMap) (o : Option Nat) :
    ∃ ext, (nmAlloc store o).2 = store ++ ext := by
  cases o with
  | none => exact ⟨[[]], rfl⟩
  | some a =>
    rw [nmAlloc]
    by_cases h : (storeGet store a).isEmpty = true
    · rw [if_pos h]
      exact ⟨[[]], rfl⟩
    · rw [if_neg h]
      exact ⟨[], (List.append_nil store).symm⟩

theorem nestedFieldsSGo_frame
    (recInit : SqlaCls → Nat → List HMap →
      Option (Except PyErr SchemaState) × List HMap)
    (hrec : ∀ c a s, ∃ ext, (recInit c a s).2 = s ++ ext) :
    ∀ (entries : HMap) (new_fields : List (String × Field)) (store : List HMap),
      ∃ ext, (nestedFieldsSGo recInit entries new_fields store).2 = store ++ ext := by
  intro entries
  induction entries with
  | nil =>
    intro new_fields store
    exact ⟨[], (List.append_nil store).symm⟩
  | cons e rest IH =>
    intro new_fields store
    obtain ⟨key, val⟩ := e
    obtain ⟨ext1, h1⟩ := nmAlloc_frame store val.nested_map
    obtain ⟨ext2, h2⟩ := hrec val.cls (nmAlloc store val.nested_map).1
      (nmAlloc store val.nested_map).2
    simp only [nestedFieldsSGo]
    cases hri : recInit val.cls (nmAlloc store val.nested_map).1
        (nmAlloc store val.nested_map).2 with
    | mk r store2 =>
      rw [hri] at h2
      rw [h1, List.append_assoc] at h2
      cases r with
      | none => exact ⟨ext1 ++ ext2, h2⟩
      | some res =>
        cases res with
        | error e => exact ⟨ext1 ++ ext2, h2⟩
        | ok subSchema =>
          obtain ⟨ext3, h3⟩ := IH (dictSet new_fields key
            (Field.nested subSchema.snake_to_camel subSchema.camel_to_snake
              subSchema.new_obj subSchema.fields val.many none none none)) store2
          refine ⟨ext1 ++ ext2 ++ ext3, ?_⟩
          have h2s : store2 = store ++ (ext1 ++ ext2) := h2
          rw [h3, h2s, List.append_assoc]

theorem goldenInitS_frame : ∀ (fuel : Nat) (cls : SqlaCls) (addr : Nat)
    (no stc cts : Bool) (declared : List (String × Field)) (store : List HMap),
    ∃ ext, (goldenInitS fuel cls addr no stc cts declared store).2 = store ++ ext := by
  intro fuel
  induction fuel with
  | zero =>
    intro cls addr no stc cts declared store
    exact ⟨[], (List.append_nil store).symm⟩
  | succ fuel IH =>
    intro cls addr no stc cts declared store
    simp only [goldenInitS]
    cases CaseChangingSchema.init stc cts declared with
    | error e => exact ⟨[], (List.append_nil store).symm⟩
    | ok st =>
      cases generate_column_fields stc cts cls.columns with
      | error e => exact ⟨[], (List.append_nil store).symm⟩
      | ok colFields =>
        exact nestedFieldsSGo_frame
          (fun c a s => goldenInitS fuel c a no stc cts [] s)
          (fun c a s => IH c a no stc cts [] s)
          (storeGet store addr) colFields store

/-- Claim C10: `GoldenSchema` construction never mutates the nested map
it is given, nor any of its sub-maps: the heap after construction is the
pre-state heap extended by freshly allocated cells only, so every
pre-existing address — in particular the address of the supplied nested
map and of each sub-map it references — still holds exactly its original
dict.  The module-level mutable default `{}` dict (allocated once when
`__init__`'s `nested_map={}` default is evaluated, shared by every call
that omits the argument, at some fixed pre-state address) therefore
remains empty across all constructions: no state leaks between
serializer instances. -/
theorem C10_no_mutation (fuel : Nat) (cls : SqlaCls) (addr : Nat)
    (no stc cts : Bool) (declared : List (String × Field)) (store : List HMap) :
    (∃ ext, (goldenInitS fuel cls addr no stc cts declared store).2 = store ++ ext) ∧
    (∀ a, a < store.length →
      storeGet (goldenInitS fuel cls addr no stc cts declared store).2 a =
        storeGet store a) := by
  obtain ⟨ext, hext⟩ := goldenInitS_frame fuel cls addr no stc cts declared store
  refine ⟨⟨ext, hext⟩, ?_⟩
  intro a ha
  rw [hext]
  exact storeGet_append_left store ext a ha

theorem C10_no_mutation_witness :
    (goldenInitS 2 ⟨[("name", ⟨.String, true⟩)]⟩ 0 false false false []
      c10Store).2 = c10Store ++ [[]] ∧
    storeGet (goldenInitS 2 ⟨[("name", ⟨.String, true⟩)]⟩ 0 false false false []
      c10Store).2 1 = storeGet c10Store 1 := by
  refine ⟨rfl, ?_⟩
  exact (C10_no_mutation 2 ⟨[("name", ⟨.String, true⟩)]⟩ 0 false false false []
    c10Store).2 1 (by decide)

end GoldenMarshmallows
